import Mathlib

/-!
The line pipeline of the YML translator, `traduzir-linhas.js`.

Shallow embedding of `src/traduzir-linhas.js`.

* A JavaScript string is a `List Char` (`Str`).  Every character the program
  inspects (`:`, the two quote characters, the newline, white space) lies in
  the basic plane, so on well-formed text the list of characters and the list
  of UTF-16 code units agree on every test the program performs.
* The translation collaborator (`translate` of `google-translate-api-x`) is an
  arbitrary oracle.  One retry chain only ever sees the outcomes of its own
  calls, so the oracle is indexed by the output index of the job and by the
  number of the call inside the chain; quantifying over all oracles covers
  every success/failure pattern and every completion order.
* A promise is represented by the value it settles to.  The line loop touches
  its promises only through `await Promise.all(bufferPromises)`.
* `console.*` output and the timestamp of a log record are not modelled.
-/

namespace TraduzirLinhas

/-- JavaScript string. -/
abbrev Str := List Char

/-- The apostrophe `U+0027`. -/
def aspaSimples : Char := Char.ofNat 39

/-- The double quote `U+0022`. -/
def aspaDupla : Char := Char.ofNat 34

/-- The line feed `U+000A`. -/
def novaLinha : Char := Char.ofNat 10

/-- The colon `U+003A`. -/
def doisPontos : Char := Char.ofNat 58

/-- Character class `["']` of the regular expression in `cleanValue`. -/
def isQuote (c : Char) : Bool := c == aspaDupla || c == aspaSimples

/-- White space as `String.prototype.trim` understands it (ECMAScript
`WhiteSpace` and `LineTerminator`). -/
def isWhiteSpace (c : Char) : Bool :=
  let n := c.toNat
  n == 9 || n == 10 || n == 11 || n == 12 || n == 13 || n == 32 || n == 160 ||
  n == 5760 || (8192 ≤ n && n ≤ 8202) || n == 8232 || n == 8233 || n == 8239 ||
  n == 8287 || n == 12288 || n == 65279

/-- Model of `String.prototype.trimStart`. -/
def trimStart (s : Str) : Str := s.dropWhile isWhiteSpace

/-- Model of `String.prototype.trimEnd`. -/
def trimEnd (s : Str) : Str := (s.reverse.dropWhile isWhiteSpace).reverse

/-- Model of `String.prototype.trim`. -/
def trim (s : Str) : Str := trimEnd (trimStart s)

/-- First alternative of `/^["']|["']$/g`: a quote at position 0 is removed. -/
def stripLeadingQuote : Str → Str
  | [] => []
  | c :: t => if isQuote c then t else c :: t

/-- Second alternative of `/^["']|["']$/g`: a quote at the last position is
removed. -/
def stripTrailingQuote (s : Str) : Str :=
  match s.getLast? with
  | some c => if isQuote c then s.dropLast else s
  | none => []

/-- Model of `s.replace(/^["']|["']$/g, '')`: the global scan first meets position 0
(first alternative), then goes on after that match and meets the last position
(second alternative) if it is still ahead. -/
def replaceQuotes (s : Str) : Str := stripTrailingQuote (stripLeadingQuote s)

/-- Function `cleanValue` (source lines 21-25). -/
def cleanValue (valor : Str) : Str := trim (replaceQuotes (trim valor))

/-- Model of `String.prototype.split` with a one-character separator. -/
def split (sep : Char) : Str → List Str
  | [] => [[]]
  | c :: cs =>
    if c = sep then [] :: split sep cs
    else
      match split sep cs with
      | [] => [[c]]
      | p :: ps => (c :: p) :: ps

/-- Model of `Array.prototype.join`. -/
def join (sep : Str) : List Str → Str
  | [] => []
  | [a] => a
  | a :: b :: rest => a ++ sep ++ join sep (b :: rest)

/-- Model of `linha.includes(':')`. -/
def includes (linha : Str) (c : Char) : Bool := linha.contains c

/-- Variable `chaveCrua` of `const [chaveCrua, ...resto] = linha.split(':')`. -/
def chaveCrua (linha : Str) : Str := (split doisPontos linha).headD []

/-- Variable `resto` of `const [chaveCrua, ...resto] = linha.split(':')`. -/
def resto (linha : Str) : List Str := (split doisPontos linha).tail

/-- Variable `chave` (source line 102). -/
def chave (linha : Str) : Str := trim (chaveCrua linha)

/-- The argument of `cleanValue` on source line 103: `resto.join(':')`. -/
def valorCru (linha : Str) : Str := join [doisPontos] (resto linha)

/-- Variable `valorOriginal` (source line 103). -/
def valorOriginal (linha : Str) : Str := cleanValue (valorCru linha)

/-- One record appended to `logs/erro-traducao-<idioma>.log`. -/
structure Registro where
  idioma : Str
  valor : Str
  mensagem : Str
deriving DecidableEq, Repr

/-- What one call of `traduzirLinha` did: the text it returned, the records it
appended to the log, the texts it handed to the collaborator (one per call)
and the delays it waited, each in order. -/
structure Retorno where
  texto : Str
  registros : List Registro
  chamadas : List Str
  esperas : List Nat
deriving DecidableEq, Repr

/-- The collaborator as one retry chain sees it: the outcome of its `n`-th
call (from 0) with the given text and target language; `.ok` carries
`res.text`, `.error` carries `err.message`. -/
abbrev Oraculo := Nat → Str → Str → Except Str Str

/-- Model of `res.text.replace(/\n/g, ' ')`. -/
def semQuebras (s : Str) : Str := s.map (fun c => if c = novaLinha then ' ' else c)

/-- Function `traduzirLinha` (source lines 28-62).  The recursive call sees the rest of
the oracle. -/
def traduzirLinha (translate : Oraculo) (valor idiomaDestino : Str) :
    (tentativas : Nat) → (espera : Nat) → Retorno
  | tentativas, espera =>
    match translate 0 valor idiomaDestino with
    | .ok res =>
      { texto := semQuebras res, registros := [], chamadas := [valor], esperas := [] }
    | .error msg =>
      let reg : Registro := { idioma := idiomaDestino, valor := valor, mensagem := msg }
      match tentativas with
      | 0 => { texto := valor, registros := [reg], chamadas := [valor], esperas := [] }
      | t + 1 =>
        let r := traduzirLinha (fun n => translate (n + 1)) valor idiomaDestino t (espera * 2)
        { texto := r.texto, registros := reg :: r.registros,
          chamadas := valor :: r.chamadas, esperas := espera :: r.esperas }

/-- Default value of the parameter `tentativas`. -/
def tentativasPadrao : Nat := 5

/-- Default value of the parameter `espera`. -/
def esperaPadrao : Nat := 1000

/-- The collaborator as a language pass sees it: first argument is the output
index of the job whose retry chain makes the call. -/
abbrev Tradutor := Nat → Oraculo

/-- The template literal of source line 116. -/
def formata (chave texto : Str) : Str :=
  [' ', ' '] ++ chave ++ [doisPontos, ' ', aspaSimples] ++ texto ++ [aspaSimples]

/-- The template literal of source line 107. -/
def formataVazia (chave : Str) : Str :=
  [' ', ' '] ++ chave ++ [doisPontos, ' ', aspaSimples, aspaSimples]

/-- One write of `./<idioma>.yml`: the array handed to `join('\n')`. -/
structure Gravacao where
  linhas : List Str
  parcial : Bool
deriving DecidableEq, Repr

/-- The text written to disk. -/
def Gravacao.conteudo (g : Gravacao) : Str := join [novaLinha] g.linhas

/-- Variables of `traduzirParaIdioma` (source lines 72-75), the writes of the
output file so far, the collaborator calls started so far, each with the
output index of its job, the log records, and the batches resolved so far by
`processaBuffer`, each as the list of output indices it assigned. -/
structure Estado where
  linhasTraduzidas : List (Option Str)
  bufferPromises : List Str
  bufferIndices : List Nat
  contador : Nat
  gravacoes : List Gravacao
  chamadas : List (Nat × Str)
  registros : List Registro
  lotes : List (List Nat)
deriving DecidableEq, Repr

/-- State on entry to the line loop. -/
def Estado.inicial : Estado :=
  { linhasTraduzidas := [], bufferPromises := [], bufferIndices := [], contador := 0,
    gravacoes := [], chamadas := [], registros := [], lotes := [] }

/-- The loop of `processaBuffer` (source lines 82-84):
`linhasTraduzidas[bufferIndices[i]] = resultados[i]`.  Every index of the
buffer is below the length of the array (`Inv.trad`), so the assignment never
extends it. -/
def atribui : List (Option Str) → List Nat → List Str → List (Option Str)
  | l, i :: is, r :: rs => atribui (l.set i (some r)) is rs
  | l, _, _ => l

/-- Function `processaBuffer` (source lines 78-88). -/
def processaBuffer (e : Estado) : Estado :=
  { e with
    linhasTraduzidas := atribui e.linhasTraduzidas e.bufferIndices e.bufferPromises
    bufferPromises := []
    bufferIndices := []
    lotes := e.lotes ++ [e.bufferIndices] }

/-- Source lines 132-134: `if (l[i] === null) l[i] = l[i] || ''`. -/
def coage (l : List (Option Str)) : List (Option Str) :=
  l.map (fun o => match o with
    | none => some []
    | some s => some s)

/-- Model of `linhasTraduzidas.filter(l => l !== null)`. -/
def semNulos (l : List (Option Str)) : List Str := l.filterMap id

/-- Partial save (source lines 130-138). -/
def salvaParcial (e : Estado) : Estado :=
  if e.contador % 500 = 0 then
    let l := coage e.linhasTraduzidas
    { e with
      linhasTraduzidas := l
      gravacoes := e.gravacoes ++ [{ linhas := semNulos l, parcial := true }] }
  else e

/-- Body of the `for await` loop (source lines 91-139) for one line. -/
def passo (tr : Tradutor) (idioma : Str) (e : Estado) (linha : Str) : Estado :=
  if !includes linha doisPontos then
    { e with
      linhasTraduzidas := e.linhasTraduzidas ++ [some linha]
      contador := e.contador + 1 }
  else
    let chave := chave linha
    let valorOriginal := valorOriginal linha
    if valorOriginal.isEmpty then
      { e with
        linhasTraduzidas := e.linhasTraduzidas ++ [some (formataVazia chave)]
        contador := e.contador + 1 }
    else
      let r := traduzirLinha (tr e.contador) valorOriginal idioma tentativasPadrao esperaPadrao
      let e1 : Estado :=
        { e with
          bufferPromises := e.bufferPromises ++ [formata chave r.texto]
          bufferIndices := e.bufferIndices ++ [e.contador]
          linhasTraduzidas := e.linhasTraduzidas ++ [none]
          contador := e.contador + 1
          chamadas := e.chamadas ++ r.chamadas.map (fun t => (e.contador, t))
          registros := e.registros ++ r.registros }
      let e2 := if e1.bufferPromises.length ≥ 5 then processaBuffer e1 else e1
      salvaParcial e2

/-- The line loop over the whole input. -/
def laco (tr : Tradutor) (idioma : Str) (linhas : List Str) (e : Estado) : Estado :=
  linhas.foldl (passo tr idioma) e

/-- Source lines 141-148: drain the buffer, drop nulls, write the file. -/
def finaliza (e : Estado) : Estado :=
  let e1 := if e.bufferPromises.length > 0 then processaBuffer e else e
  { e1 with
    gravacoes := e1.gravacoes ++ [{ linhas := semNulos e1.linhasTraduzidas, parcial := false }] }

/-- Function `traduzirParaIdioma` (source lines 65-150) on the lines that `readline`
delivers. -/
def traduzirParaIdioma (tr : Tradutor) (idioma : Str) (linhas : List Str) : Estado :=
  finaliza (laco tr idioma linhas Estado.inicial)

/-- Variable `linhasFinal` (source line 147). -/
def linhasFinal (tr : Tradutor) (idioma : Str) (linhas : List Str) : List Str :=
  semNulos (traduzirParaIdioma tr idioma linhas).linhasTraduzidas

/-- A collaborator whose every call fails with the given message. -/
def sempreFalha (msg : Str) : Oraculo := fun _ _ _ => .error msg

/-- A collaborator that maps one text to one translation and fails on every
other text. -/
def dicionario (de para : Str) : Tradutor :=
  fun _ _ valor _ => if valor = de then .ok para else .error "desconhecido".toList

/-- The translatable branch of the loop body up to and including
`contador++` (source lines 114-121). -/
def enfileira (tr : Tradutor) (idioma : Str) (e : Estado) (linha : Str) : Estado :=
  let r := traduzirLinha (tr e.contador) (valorOriginal linha) idioma tentativasPadrao esperaPadrao
  { e with
    bufferPromises := e.bufferPromises ++ [formata (chave linha) r.texto]
    bufferIndices := e.bufferIndices ++ [e.contador]
    linhasTraduzidas := e.linhasTraduzidas ++ [none]
    contador := e.contador + 1
    chamadas := e.chamadas ++ r.chamadas.map (fun t => (e.contador, t))
    registros := e.registros ++ r.registros }

/-- The output line the three branches of the loop body intend for the line at
index `i`: the line itself, the empty entry, or the formatted result of the
job of index `i`. -/
def esperado (tr : Tradutor) (idioma : Str) (i : Nat) (linha : Str) : Str :=
  if !includes linha doisPontos then linha
  else if (valorOriginal linha).isEmpty then formataVazia (chave linha)
  else formata (chave linha)
    (traduzirLinha (tr i) (valorOriginal linha) idioma tentativasPadrao esperaPadrao).texto

/-- Loop invariant of `traduzirParaIdioma` after the lines `pre` were read. -/
structure Inv (tr : Tradutor) (idioma : Str) (pre : List Str) (e : Estado) : Prop where
  cont : e.contador = pre.length
  len : e.linhasTraduzidas.length = pre.length
  buf : e.bufferIndices.length = e.bufferPromises.length
  pend : ∀ p ∈ List.zip e.bufferIndices e.bufferPromises,
    ∃ linha, pre[p.1]? = some linha ∧ p.2 = esperado tr idioma p.1 linha
  trad : ∀ i ∈ e.bufferIndices, ∃ linha, pre[i]? = some linha ∧
    includes linha doisPontos = true ∧ (valorOriginal linha).isEmpty = false
  slot : ∀ i linha, pre[i]? = some linha →
    e.linhasTraduzidas[i]? = some (some (esperado tr idioma i linha)) ∨ i ∈ e.bufferIndices
  cham : ∀ p ∈ e.chamadas, ∃ linha, pre[p.1]? = some linha ∧
    includes linha doisPontos = true ∧ (valorOriginal linha).isEmpty = false ∧
    p.2 = valorOriginal linha

/-- Whether an outcome of the collaborator is a failure (the `catch` branch of
`traduzirLinha`). -/
def falhou (r : Except Str Str) : Bool :=
  match r with
  | .error _ => true
  | .ok _ => false

/-- A collaborator that fails on its first `n` calls and then answers `r`. -/
def falhaDepois (n : Nat) (r : Str) : Oraculo :=
  fun k _ _ => if k < n then .error "indisponível".toList else .ok r

/-- The test that sends a line to the third branch of the loop body (source
lines 93 and 106): it has a colon and its normalized value is not empty. -/
def traduzivel (linha : Str) : Bool :=
  includes linha doisPontos && !(valorOriginal linha).isEmpty

/-- Whether the line at index `i` of the input is a translatable entry. -/
def traduzivelEm (linhas : List Str) (i : Nat) : Bool :=
  match linhas[i]? with
  | some l => traduzivel l
  | none => false

/-- Output indices of the translatable entries of an input, in source order. -/
def indicesTraduziveis (linhas : List Str) : List Nat :=
  (List.range linhas.length).filter (traduzivelEm linhas)

/-- Invariant of the job buffer after the lines `pre` were read: at most four
jobs wait, every batch resolved so far held five, batches and buffer together
are the translatable entries in source order, and the slot of a waiting job
holds null or the empty string. -/
structure InvLotes (pre : List Str) (e : Estado) : Prop where
  max : e.bufferIndices.length ≤ 4
  cinco : ∀ b ∈ e.lotes, b.length = 5
  ordem : e.lotes.flatten ++ e.bufferIndices = indicesTraduziveis pre
  pendente : ∀ i ∈ e.bufferIndices,
    e.linhasTraduzidas[i]? = some none ∨ e.linhasTraduzidas[i]? = some (some [])

/-! ## Lemmas on the string primitives -/

theorem trimEnd_eq_rdropWhile (s : Str) : trimEnd s = s.rdropWhile isWhiteSpace := rfl

theorem trimStart_trimStart (s : Str) : trimStart (trimStart s) = trimStart s :=
  List.dropWhile_idempotent _ _

theorem trimEnd_trimEnd (s : Str) : trimEnd (trimEnd s) = trimEnd s := by
  simp only [trimEnd_eq_rdropWhile]
  exact List.rdropWhile_idempotent _ _

theorem trimStart_length_le (s : Str) : (trimStart s).length ≤ s.length :=
  (List.dropWhile_suffix isWhiteSpace).length_le

theorem trimEnd_length_le (s : Str) : (trimEnd s).length ≤ s.length := by
  rw [trimEnd_eq_rdropWhile]
  exact (List.rdropWhile_prefix isWhiteSpace s).length_le

theorem trim_length_le (s : Str) : (trim s).length ≤ s.length :=
  Nat.le_trans (trimEnd_length_le _) (trimStart_length_le _)

/-- A string whose first and last characters are not white space is its own
trim. -/
theorem trim_eq_self (s : Str)
    (h1 : ∀ c, s.head? = some c → isWhiteSpace c = false)
    (h2 : ∀ c, s.getLast? = some c → isWhiteSpace c = false) : trim s = s := by
  have a : trimStart s = s := by
    cases s with
    | nil => rfl
    | cons c t =>
      have := h1 c rfl
      simp [trimStart, List.dropWhile, this]
  rw [trim, a, trimEnd_eq_rdropWhile, List.rdropWhile_eq_self_iff]
  intro hl
  have := h2 (s.getLast hl) (List.getLast?_eq_getLast s hl)
  simp [this]

theorem trimStart_head (s : Str) (c : Char) (h : (trimStart s).head? = some c) :
    isWhiteSpace c = false := by
  induction s with
  | nil => simp [trimStart] at h
  | cons a t ih =>
    by_cases ha : isWhiteSpace a = true
    · have e : trimStart (a :: t) = trimStart t := by simp [trimStart, List.dropWhile, ha]
      rw [e] at h
      exact ih h
    · have e : trimStart (a :: t) = a :: t := by simp [trimStart, List.dropWhile, ha]
      rw [e] at h
      simp at h
      subst h
      simpa using ha

theorem trimEnd_getLast (s : Str) (c : Char) (h : (trimEnd s).getLast? = some c) :
    isWhiteSpace c = false := by
  rw [trimEnd_eq_rdropWhile] at h
  have hne : s.rdropWhile isWhiteSpace ≠ [] := by
    intro e
    rw [e] at h
    simp at h
  have := List.rdropWhile_last_not isWhiteSpace s hne
  rw [List.getLast?_eq_getLast _ hne] at h
  simp at h
  subst h
  simpa using this

theorem trimEnd_head (s : Str) (c : Char) (h : (trimEnd s).head? = some c) :
    s.head? = some c := by
  rw [trimEnd_eq_rdropWhile] at h
  obtain ⟨t, ht⟩ := List.rdropWhile_prefix isWhiteSpace s
  cases hs : s.rdropWhile isWhiteSpace with
  | nil => rw [hs] at h; simp at h
  | cons a r =>
    rw [hs] at h ht
    rw [← ht]
    simpa using h

/-- The result of `trim` neither begins nor ends with white space. -/
theorem trim_head (s : Str) (c : Char) (h : (trim s).head? = some c) :
    isWhiteSpace c = false :=
  trimStart_head s c (trimEnd_head _ c h)

theorem trim_getLast (s : Str) (c : Char) (h : (trim s).getLast? = some c) :
    isWhiteSpace c = false :=
  trimEnd_getLast _ c h

theorem trim_trim (s : Str) : trim (trim s) = trim s :=
  trim_eq_self _ (trim_head s) (trim_getLast s)

theorem stripLeadingQuote_length_le (s : Str) : (stripLeadingQuote s).length ≤ s.length := by
  cases s with
  | nil => simp [stripLeadingQuote]
  | cons c t =>
    by_cases h : isQuote c = true <;> simp [stripLeadingQuote, h]

theorem stripTrailingQuote_length_le (s : Str) : (stripTrailingQuote s).length ≤ s.length := by
  unfold stripTrailingQuote
  cases h : s.getLast? with
  | none => simp
  | some c =>
    by_cases hq : isQuote c = true <;> simp [hq]

theorem stripLeadingQuote_of_not (s : Str)
    (h : ∀ c, s.head? = some c → isQuote c = false) : stripLeadingQuote s = s := by
  cases s with
  | nil => rfl
  | cons c t => simp [stripLeadingQuote, h c rfl]

theorem stripTrailingQuote_of_not (s : Str)
    (h : ∀ c, s.getLast? = some c → isQuote c = false) : stripTrailingQuote s = s := by
  unfold stripTrailingQuote
  cases hl : s.getLast? with
  | none => simpa using hl
  | some c => simp [h c hl]

theorem stripLeadingQuote_lt (s : Str) (c : Char) (h : s.head? = some c)
    (hq : isQuote c = true) : (stripLeadingQuote s).length < s.length := by
  cases s with
  | nil => simp at h
  | cons a t =>
    simp at h
    subst h
    simp [stripLeadingQuote, hq]

theorem stripTrailingQuote_lt (s : Str) (c : Char) (h : s.getLast? = some c)
    (hq : isQuote c = true) : (stripTrailingQuote s).length < s.length := by
  unfold stripTrailingQuote
  have hne : s ≠ [] := by
    intro e
    rw [e] at h
    simp at h
  have : 0 < s.length := List.length_pos.mpr hne
  simp only [h, hq, if_true, List.length_dropLast]
  omega

theorem stripTrailingQuote_concat (m : Str) (b : Char) :
    stripTrailingQuote (m ++ [b]) = if isQuote b then m else m ++ [b] := by
  simp [stripTrailingQuote]

theorem replaceQuotes_length_le (s : Str) : (replaceQuotes s).length ≤ s.length :=
  Nat.le_trans (stripTrailingQuote_length_le _) (stripLeadingQuote_length_le _)

/-- The value `cleanValue` returns is already trimmed. -/
theorem trim_cleanValue (v : Str) : trim (cleanValue v) = cleanValue v := trim_trim _

/-! ## cleanValue -/

/-- C6, as stated, fails: the value with two layers of quotes loses one layer
at each application, so a second `cleanValue` changes the result of the
first. -/
theorem cleanValue_twice_differs :
    cleanValue "''a''".toList = "'a'".toList ∧
    cleanValue (cleanValue "''a''".toList) = "a".toList ∧
    cleanValue (cleanValue "''a''".toList) ≠ cleanValue "''a''".toList := by
  decide

/-- C6, amended: a second `cleanValue` leaves the result of the first unchanged
exactly when that result neither begins nor ends with a quote character. -/
theorem cleanValue_idempotent_iff (v : Str) :
    cleanValue (cleanValue v) = cleanValue v ↔
      ((∀ c, (cleanValue v).head? = some c → isQuote c = false) ∧
       (∀ c, (cleanValue v).getLast? = some c → isQuote c = false)) := by
  constructor
  · intro h
    have hlen : (cleanValue (cleanValue v)).length = (cleanValue v).length := by rw [h]
    have e1 : cleanValue (cleanValue v) = trim (replaceQuotes (cleanValue v)) := by
      show trim (replaceQuotes (trim (cleanValue v))) = _
      rw [trim_cleanValue]
    rw [e1] at hlen
    have l1 := trim_length_le (replaceQuotes (cleanValue v))
    have l2 := stripTrailingQuote_length_le (stripLeadingQuote (cleanValue v))
    have l3 := stripLeadingQuote_length_le (cleanValue v)
    have l4 : (replaceQuotes (cleanValue v)).length
        = (stripTrailingQuote (stripLeadingQuote (cleanValue v))).length := rfl
    have hlead : stripLeadingQuote (cleanValue v) = cleanValue v := by
      cases hr : cleanValue v with
      | nil => rfl
      | cons c t =>
        by_cases hq : isQuote c = true
        · exfalso
          have := stripLeadingQuote_lt (cleanValue v) c (by rw [hr]; rfl) hq
          omega
        · simp [stripLeadingQuote, hq]
    constructor
    · intro c hc
      by_contra hq
      have hq2 : isQuote c = true := by simpa using hq
      have := stripLeadingQuote_lt (cleanValue v) c hc hq2
      omega
    · intro c hc
      by_contra hq
      have hq2 : isQuote c = true := by simpa using hq
      have h3 := stripTrailingQuote_lt (cleanValue v) c hc hq2
      have h4 : replaceQuotes (cleanValue v) = stripTrailingQuote (cleanValue v) := by
        rw [replaceQuotes, hlead]
      have h5 := congrArg List.length h4
      omega
  · rintro ⟨h1, h2⟩
    show trim (replaceQuotes (trim (cleanValue v))) = cleanValue v
    rw [trim_cleanValue, replaceQuotes, stripLeadingQuote_of_not _ h1,
      stripTrailingQuote_of_not _ h2, trim_cleanValue]

/-- C7, as stated, fails: a trimmed value that begins with a quote and does not
end with one still loses the leading quote, and two different quote characters
are both removed. -/
theorem cleanValue_unpaired_quote :
    trim "'abc".toList = "'abc".toList ∧
    cleanValue "'abc".toList = "abc".toList ∧
    cleanValue "'abc".toList ≠ trim "'abc".toList ∧
    cleanValue "\"abc'".toList = "abc".toList ∧
    cleanValue "\"abc'".toList ≠ trim "\"abc'".toList := by
  decide

/-- C7, amended: `cleanValue` removes a quote character at the first position
of the trimmed value and, independently, a quote character at the last position
of what remains, whether or not the other one is present and whether or not the
two are the same character, and trims the result; when the trimmed value
neither begins nor ends with a quote character the result is the trimmed
value. -/
theorem cleanValue_cases (v : Str) :
    (∀ a b m, trim v = a :: (m ++ [b]) → isQuote a = true → isQuote b = true →
        cleanValue v = trim m) ∧
    (∀ a m, trim v = a :: m → isQuote a = true →
        (∀ c, m.getLast? = some c → isQuote c = false) → cleanValue v = trim m) ∧
    (∀ m b, trim v = m ++ [b] → isQuote b = true →
        (∀ c, (m ++ [b]).head? = some c → isQuote c = false) → cleanValue v = trim m) ∧
    ((∀ c, (trim v).head? = some c → isQuote c = false) →
        (∀ c, (trim v).getLast? = some c → isQuote c = false) → cleanValue v = trim v) := by
  refine ⟨?_, ?_, ?_, ?_⟩
  · intro a b m h ha hb
    show trim (replaceQuotes (trim v)) = trim m
    rw [h, replaceQuotes]
    simp [stripLeadingQuote, ha, stripTrailingQuote_concat, hb]
  · intro a m h ha hm
    show trim (replaceQuotes (trim v)) = trim m
    rw [h, replaceQuotes]
    simp only [stripLeadingQuote, ha, if_true]
    rw [stripTrailingQuote_of_not _ hm]
  · intro m b h hb hm
    show trim (replaceQuotes (trim v)) = trim m
    rw [h, replaceQuotes, stripLeadingQuote_of_not _ hm, stripTrailingQuote_concat]
    simp [hb]
  · intro h1 h2
    show trim (replaceQuotes (trim v)) = trim v
    rw [replaceQuotes, stripLeadingQuote_of_not _ h1, stripTrailingQuote_of_not _ h2, trim_trim]

/-- Instance of `cleanValue_cases`: a matching pair, a lone leading quote, a
lone trailing quote and an unquoted value. -/
theorem cleanValue_cases_witness :
    cleanValue " 'Olá Mundo' ".toList = trim "Olá Mundo".toList ∧
    cleanValue "'abc".toList = trim "abc".toList ∧
    cleanValue "abc\"".toList = trim "abc".toList ∧
    cleanValue " abc ".toList = trim " abc ".toList :=
  ⟨(cleanValue_cases " 'Olá Mundo' ".toList).1 aspaSimples aspaSimples "Olá Mundo".toList
      (by decide) (by decide) (by decide),
   (cleanValue_cases "'abc".toList).2.1 aspaSimples "abc".toList
      (by decide) (by decide) (by decide),
   (cleanValue_cases "abc\"".toList).2.2.1 "abc".toList aspaDupla
      (by decide) (by decide) (by decide),
   (cleanValue_cases " abc ".toList).2.2.2 (by decide) (by decide)⟩

/-! ## Splitting a line on the first colon -/

theorem split_ne_nil (sep : Char) (s : Str) : split sep s ≠ [] := by
  cases s with
  | nil => simp [split]
  | cons c cs =>
    unfold split
    split_ifs
    · simp
    · cases split sep cs <;> simp

theorem split_sep_cons (sep : Char) (s : Str) : split sep (sep :: s) = [] :: split sep s := by
  simp [split]

theorem split_cons_of_ne (sep c : Char) (s : Str) (h : c ≠ sep) :
    split sep (c :: s) = (c :: (split sep s).headD []) :: (split sep s).tail := by
  have := split_ne_nil sep s
  rw [split]
  cases hs : split sep s with
  | nil => exact absurd hs this
  | cons p ps => simp [h]

/-- Splitting at the first occurrence of the separator. -/
theorem split_append_sep (sep : Char) (antes depois : Str) (h : sep ∉ antes) :
    split sep (antes ++ sep :: depois) = antes :: split sep depois := by
  induction antes with
  | nil => simp [split]
  | cons c t ih =>
    have hc : c ≠ sep := by
      intro e
      exact h (by simp [e])
    have ht : sep ∉ t := by
      intro e
      exact h (by simp [e])
    rw [List.cons_append, split_cons_of_ne _ _ _ hc, ih ht]
    simp

/-- Re-joining the pieces with the separator gives back the string. -/
theorem join_split (sep : Char) (s : Str) : join [sep] (split sep s) = s := by
  induction s with
  | nil => simp [split, join]
  | cons c cs ih =>
    by_cases hc : c = sep
    · subst hc
      rw [split_sep_cons]
      cases hs : split c cs with
      | nil => exact absurd hs (split_ne_nil _ _)
      | cons p ps =>
        rw [hs] at ih
        simp [join, ih]
    · rw [split_cons_of_ne _ _ _ hc]
      cases hs : split sep cs with
      | nil => exact absurd hs (split_ne_nil _ _)
      | cons p ps =>
        rw [hs] at ih
        cases ps with
        | nil =>
          simp [join] at ih ⊢
          exact ih
        | cons q qs =>
          simp only [join, List.headD_cons, List.tail_cons, List.cons_append] at ih ⊢
          rw [ih]

/-- The pieces of a line around its first colon. -/
theorem primeiro_dois_pontos (linha antes depois : Str)
    (h : linha = antes ++ doisPontos :: depois) (hn : doisPontos ∉ antes) :
    includes linha doisPontos = true ∧
    chaveCrua linha = antes ∧
    chave linha = trim antes ∧
    resto linha = split doisPontos depois ∧
    join [doisPontos] (resto linha) = depois ∧
    valorCru linha = depois ∧
    valorOriginal linha = cleanValue depois := by
  subst h
  have hs := split_append_sep doisPontos antes depois hn
  have hj := join_split doisPontos depois
  refine ⟨by simp [includes], ?_, ?_, ?_, ?_, ?_, ?_⟩ <;>
    simp [chaveCrua, chave, resto, valorCru, valorOriginal, hs, hj]

/-- C9: a line is split on its first colon only.  With `antes` the text before
the first colon and `depois` the whole text after it, `chaveCrua` is `antes`,
the key is `antes` trimmed, and joining the remaining pieces with `:` gives back
`depois` unchanged, later colons included; this is the value handed to
`cleanValue`. -/
theorem split_first_colon (linha antes depois : Str)
    (h : linha = antes ++ doisPontos :: depois) (hn : doisPontos ∉ antes) :
    includes linha doisPontos = true ∧
    chaveCrua linha = antes ∧
    chave linha = trim antes ∧
    resto linha = split doisPontos depois ∧
    join [doisPontos] (resto linha) = depois ∧
    valorCru linha = depois ∧
    valorOriginal linha = cleanValue depois :=
  primeiro_dois_pontos linha antes depois h hn

/-- Instance of `split_first_colon` on the line `url: http://a:80`. -/
theorem split_first_colon_witness :
    includes "url: http://a:80".toList doisPontos = true ∧
    chaveCrua "url: http://a:80".toList = "url".toList ∧
    chave "url: http://a:80".toList = trim "url".toList ∧
    resto "url: http://a:80".toList = split doisPontos " http://a:80".toList ∧
    join [doisPontos] (resto "url: http://a:80".toList) = " http://a:80".toList ∧
    valorCru "url: http://a:80".toList = " http://a:80".toList ∧
    valorOriginal "url: http://a:80".toList = cleanValue " http://a:80".toList :=
  split_first_colon "url: http://a:80".toList "url".toList " http://a:80".toList
    (by decide) (by decide)

/-- Every line that contains a colon has such a decomposition. -/
theorem exists_first_colon (linha : Str) (h : includes linha doisPontos = true) :
    ∃ antes depois, linha = antes ++ doisPontos :: depois ∧ doisPontos ∉ antes := by
  induction linha with
  | nil => simp [includes] at h
  | cons c t ih =>
    by_cases hc : c = doisPontos
    · exact ⟨[], t, by simp [hc], by simp⟩
    · have ht : includes t doisPontos = true := by
        simp [includes] at h ⊢
        rcases h with h | h
        · exact absurd h.symm hc
        · exact h
      obtain ⟨a, d, e, hn⟩ := ih ht
      refine ⟨c :: a, d, by simp [e], ?_⟩
      simp only [List.mem_cons, not_or]
      exact ⟨fun e => hc e.symm, hn⟩

/-! ## traduzirLinha -/

/-- Every text handed to the collaborator by a retry chain is the text the
chain was started with. -/
theorem traduzirLinha_chamadas (valor idioma : Str) (tentativas : Nat) :
    ∀ (translate : Oraculo) (espera : Nat),
      ∀ t ∈ (traduzirLinha translate valor idioma tentativas espera).chamadas, t = valor := by
  induction tentativas with
  | zero =>
    intro translate espera t ht
    unfold traduzirLinha at ht
    cases h0 : translate 0 valor idioma <;> simp [h0] at ht <;> exact ht
  | succ n ih =>
    intro translate espera t ht
    unfold traduzirLinha at ht
    cases h0 : translate 0 valor idioma with
    | ok res => simp [h0] at ht; exact ht
    | error msg =>
      simp [h0] at ht
      rcases ht with ht | ht
      · exact ht
      · exact ih _ _ t ht

/-- A retry chain all of whose calls fail: it returns the original text after
`tentativas + 1` calls and as many log records, all for that text. -/
theorem traduzirLinha_falha (valor idioma : Str) (tentativas : Nat) :
    ∀ (translate : Oraculo) (espera : Nat),
      (∀ n, ∃ msg, translate n valor idioma = .error msg) →
      (traduzirLinha translate valor idioma tentativas espera).texto = valor ∧
      (traduzirLinha translate valor idioma tentativas espera).registros.length
        = tentativas + 1 ∧
      (traduzirLinha translate valor idioma tentativas espera).chamadas.length
        = tentativas + 1 ∧
      (∀ r ∈ (traduzirLinha translate valor idioma tentativas espera).registros,
        r.valor = valor ∧ r.idioma = idioma) := by
  induction tentativas with
  | zero =>
    intro translate espera h
    obtain ⟨msg, h0⟩ := h 0
    unfold traduzirLinha
    simp [h0]
  | succ n ih =>
    intro translate espera h
    obtain ⟨msg, h0⟩ := h 0
    have := ih (fun k => translate (k + 1)) (espera * 2) (fun k => h (k + 1))
    unfold traduzirLinha
    simp only [h0]
    refine ⟨this.1, by simp [this.2.1], by simp [this.2.2.1], ?_⟩
    intro r hr
    simp at hr
    rcases hr with hr | hr
    · subst hr
      exact ⟨rfl, rfl⟩
    · exact this.2.2.2 r hr

/-! ## The line loop -/

theorem getElem?_snoc {α : Type} (l : List α) (a : α) (i : Nat) :
    (l ++ [a])[i]? = if i < l.length then l[i]? else if i = l.length then some a else none := by
  by_cases h : i < l.length
  · simp [h, List.getElem?_append_left]
  · by_cases h2 : i = l.length
    · subst h2
      simp
    · have : l.length + 1 ≤ i := by omega
      simp [h, h2]
      omega

theorem getElem?_snoc_of_some {α : Type} (l : List α) (a b : α) (i : Nat)
    (h : l[i]? = some b) : (l ++ [a])[i]? = some b := by
  have hi : i < l.length := by
    by_contra hc
    rw [List.getElem?_eq_none (by omega)] at h
    simp at h
  rw [List.getElem?_append_left hi, h]

theorem lt_of_getElem?_eq_some {α : Type} (l : List α) (b : α) (i : Nat)
    (h : l[i]? = some b) : i < l.length := by
  by_contra hc
  rw [List.getElem?_eq_none (by omega)] at h
  simp at h

theorem atribui_length (is : List Nat) :
    ∀ (rs : List Str) (l : List (Option Str)), (atribui l is rs).length = l.length := by
  induction is with
  | nil => intro rs l; simp [atribui]
  | cons i is ih =>
    intro rs l
    cases rs with
    | nil => simp [atribui]
    | cons r rs => simp [atribui, ih]

/-- A slot holds `v` after `processaBuffer` if it held `v` before or is named
in the buffer, provided every job of the buffer for that slot settles to `v`. -/
theorem atribui_getElem? (i : Nat) (v : Str) (is : List Nat) :
    ∀ (rs : List Str) (l : List (Option Str)), is.length = rs.length →
      (∀ p ∈ List.zip is rs, p.1 = i → p.2 = v) →
      i < l.length →
      (l[i]? = some (some v) ∨ i ∈ is) →
      (atribui l is rs)[i]? = some (some v) := by
  induction is with
  | nil =>
    intro rs l _ _ _ h
    rcases h with h | h
    · simpa [atribui] using h
    · simp at h
  | cons j is ih =>
    intro rs l hlen hp hi h
    cases rs with
    | nil => simp at hlen
    | cons r rs =>
      simp only [atribui]
      apply ih rs (l.set j (some r)) (by simpa using hlen)
      · intro p hp2 e
        exact hp p (by simp [hp2]) e
      · simpa using hi
      · by_cases hj : j = i
        · left
          have hr : r = v := hp (j, r) (by simp) hj
          subst hj hr
          simp [List.getElem?_set, hi]
        · rcases h with h | h
          · left
            rw [List.getElem?_set]
            simp [hj, h]
          · right
            simp at h
            rcases h with h | h
            · exact absurd h.symm hj
            · exact h

/-- A slot that no job of the buffer names is left alone by `processaBuffer`. -/
theorem atribui_getElem?_of_not_mem (i : Nat) (is : List Nat) :
    ∀ (rs : List Str) (l : List (Option Str)), i ∉ is → (atribui l is rs)[i]? = l[i]? := by
  induction is with
  | nil => intro rs l _; simp [atribui]
  | cons j is ih =>
    intro rs l h
    cases rs with
    | nil => simp [atribui]
    | cons r rs =>
      simp only [List.mem_cons, not_or] at h
      simp only [atribui]
      rw [ih rs _ h.2, List.getElem?_set]
      simp [Ne.symm h.1]

theorem coage_getElem? (l : List (Option Str)) (i : Nat) (v : Str)
    (h : l[i]? = some (some v)) : (coage l)[i]? = some (some v) := by
  simp [coage, h]

theorem coage_length (l : List (Option Str)) : (coage l).length = l.length := by
  simp [coage]

theorem semNulos_coage_length (l : List (Option Str)) : (semNulos (coage l)).length = l.length := by
  induction l with
  | nil => rfl
  | cons o t ih =>
    cases o <;> simp [semNulos, coage] at ih ⊢ <;> exact ih

/-- A buffer without null entries is the image of its null-free part. -/
theorem map_some_semNulos (l : List (Option Str)) (h : ∀ o ∈ l, o ≠ none) :
    (semNulos l).map some = l := by
  induction l with
  | nil => rfl
  | cons o t ih =>
    have ht : ∀ o ∈ t, o ≠ none := fun o ho => h o (by simp [ho])
    cases o with
    | none => exact absurd rfl (h none (by simp))
    | some a =>
      have := ih ht
      simp [semNulos] at this ⊢
      exact this

theorem passo_passthrough (tr : Tradutor) (idioma : Str) (e : Estado) (linha : Str)
    (h : includes linha doisPontos = false) :
    passo tr idioma e linha =
      { e with
        linhasTraduzidas := e.linhasTraduzidas ++ [some linha]
        contador := e.contador + 1 } := by
  simp [passo, h]

theorem passo_vazia (tr : Tradutor) (idioma : Str) (e : Estado) (linha : Str)
    (h : includes linha doisPontos = true) (hv : (valorOriginal linha).isEmpty = true) :
    passo tr idioma e linha =
      { e with
        linhasTraduzidas := e.linhasTraduzidas ++ [some (formataVazia (chave linha))]
        contador := e.contador + 1 } := by
  simp [passo, h, hv]

theorem passo_traduz (tr : Tradutor) (idioma : Str) (e : Estado) (linha : Str)
    (h : includes linha doisPontos = true) (hv : (valorOriginal linha).isEmpty = false) :
    passo tr idioma e linha =
      salvaParcial
        (if (enfileira tr idioma e linha).bufferPromises.length ≥ 5
          then processaBuffer (enfileira tr idioma e linha)
          else enfileira tr idioma e linha) := by
  simp [passo, h, hv, enfileira]

theorem esperado_passthrough (tr : Tradutor) (idioma : Str) (i : Nat) (linha : Str)
    (h : includes linha doisPontos = false) : esperado tr idioma i linha = linha := by
  simp [esperado, h]

theorem esperado_vazia (tr : Tradutor) (idioma : Str) (i : Nat) (linha : Str)
    (h : includes linha doisPontos = true) (hv : (valorOriginal linha).isEmpty = true) :
    esperado tr idioma i linha = formataVazia (chave linha) := by
  simp [esperado, h, hv]

theorem esperado_traduz (tr : Tradutor) (idioma : Str) (i : Nat) (linha : Str)
    (h : includes linha doisPontos = true) (hv : (valorOriginal linha).isEmpty = false) :
    esperado tr idioma i linha = formata (chave linha)
      (traduzirLinha (tr i) (valorOriginal linha) idioma tentativasPadrao esperaPadrao).texto := by
  simp [esperado, h, hv]

theorem Inv_inicial (tr : Tradutor) (idioma : Str) : Inv tr idioma [] Estado.inicial := by
  refine ⟨rfl, rfl, rfl, ?_, ?_, ?_, ?_⟩ <;> simp [Estado.inicial]

/-- The two branches that write the output line at once keep the invariant. -/
theorem Inv_push (tr : Tradutor) (idioma : Str) (pre : List Str) (e : Estado) (linha s : Str)
    (h : Inv tr idioma pre e) (hs : esperado tr idioma pre.length linha = s) :
    Inv tr idioma (pre ++ [linha])
      { e with
        linhasTraduzidas := e.linhasTraduzidas ++ [some s]
        contador := e.contador + 1 } := by
  refine ⟨by simp [h.cont], by simp [h.len], h.buf, ?_, ?_, ?_, ?_⟩
  · intro p hp
    obtain ⟨l, hl, e2⟩ := h.pend p hp
    exact ⟨l, getElem?_snoc_of_some _ _ _ _ hl, e2⟩
  · intro i hi
    obtain ⟨l, hl, e2⟩ := h.trad i hi
    exact ⟨l, getElem?_snoc_of_some _ _ _ _ hl, e2⟩
  · intro i l hl
    rw [getElem?_snoc] at hl
    by_cases hi : i < pre.length
    · simp only [hi, if_true] at hl
      rcases h.slot i l hl with h1 | h1
      · left
        exact getElem?_snoc_of_some _ _ _ _ h1
      · right
        exact h1
    · simp only [hi, if_false] at hl
      by_cases hi2 : i = pre.length
      · simp only [hi2, if_true, Option.some.injEq] at hl
        subst hl
        left
        show (e.linhasTraduzidas ++ [some s])[i]? = _
        rw [getElem?_snoc, h.len]
        simp [hi2, hs]
      · simp [hi2] at hl
  · intro p hp
    obtain ⟨l, hl, e2⟩ := h.cham p hp
    exact ⟨l, getElem?_snoc_of_some _ _ _ _ hl, e2⟩

/-- Queueing a job keeps the invariant. -/
theorem Inv_enfileira (tr : Tradutor) (idioma : Str) (pre : List Str) (e : Estado) (linha : Str)
    (h : Inv tr idioma pre e) (hc : includes linha doisPontos = true)
    (hv : (valorOriginal linha).isEmpty = false) :
    Inv tr idioma (pre ++ [linha]) (enfileira tr idioma e linha) := by
  have hnew : (pre ++ [linha])[e.contador]? = some linha := by
    rw [h.cont]
    simp
  refine ⟨by simp [enfileira, h.cont], by simp [enfileira, h.len], by simp [enfileira, h.buf],
    ?_, ?_, ?_, ?_⟩
  · intro p hp
    simp only [enfileira] at hp
    rw [List.zip_append h.buf] at hp
    simp only [List.mem_append, List.zip_cons_cons, List.zip_nil_right, List.mem_singleton] at hp
    rcases hp with hp | hp
    · obtain ⟨l, hl, e2⟩ := h.pend p hp
      exact ⟨l, getElem?_snoc_of_some _ _ _ _ hl, e2⟩
    · subst hp
      exact ⟨linha, hnew, (esperado_traduz tr idioma _ linha hc hv).symm⟩
  · intro i hi
    simp only [enfileira, List.mem_append, List.mem_singleton] at hi
    rcases hi with hi | hi
    · obtain ⟨l, hl, e2⟩ := h.trad i hi
      exact ⟨l, getElem?_snoc_of_some _ _ _ _ hl, e2⟩
    · subst hi
      exact ⟨linha, hnew, hc, hv⟩
  · intro i l hl
    rw [getElem?_snoc] at hl
    by_cases hi : i < pre.length
    · simp only [hi, if_true] at hl
      rcases h.slot i l hl with h1 | h1
      · left
        exact getElem?_snoc_of_some _ _ _ _ h1
      · right
        simp [enfileira, h1]
    · simp only [hi, if_false] at hl
      by_cases hi2 : i = pre.length
      · right
        simp [enfileira, hi2, h.cont]
      · simp [hi2] at hl
  · intro p hp
    simp only [enfileira, List.mem_append, List.mem_map] at hp
    rcases hp with hp | ⟨t, ht, hp⟩
    · obtain ⟨l, hl, e2⟩ := h.cham p hp
      exact ⟨l, getElem?_snoc_of_some _ _ _ _ hl, e2⟩
    · subst hp
      exact ⟨linha, hnew, hc, hv, traduzirLinha_chamadas _ _ _ _ _ t ht⟩

/-- After `processaBuffer` every slot read so far holds its intended line. -/
theorem processaBuffer_slot (tr : Tradutor) (idioma : Str) (pre : List Str) (e : Estado)
    (h : Inv tr idioma pre e) (i : Nat) (linha : Str) (hl : pre[i]? = some linha) :
    (processaBuffer e).linhasTraduzidas[i]? = some (some (esperado tr idioma i linha)) := by
  apply atribui_getElem? i _ _ _ _ h.buf
  · intro p hp hpi
    obtain ⟨l, hl2, e2⟩ := h.pend p hp
    rw [hpi, hl] at hl2
    simp only [Option.some.injEq] at hl2
    rw [e2, hpi, hl2]
  · rw [h.len]
    exact lt_of_getElem?_eq_some _ _ _ hl
  · exact h.slot i linha hl

theorem Inv_processaBuffer (tr : Tradutor) (idioma : Str) (pre : List Str) (e : Estado)
    (h : Inv tr idioma pre e) : Inv tr idioma pre (processaBuffer e) := by
  refine ⟨h.cont, ?_, rfl, ?_, ?_, ?_, h.cham⟩
  · show (atribui _ _ _).length = _
    rw [atribui_length, h.len]
  · intro p hp
    simp [processaBuffer] at hp
  · intro i hi
    simp [processaBuffer] at hi
  · intro i l hl
    left
    exact processaBuffer_slot tr idioma pre e h i l hl

theorem Inv_salvaParcial (tr : Tradutor) (idioma : Str) (pre : List Str) (e : Estado)
    (h : Inv tr idioma pre e) : Inv tr idioma pre (salvaParcial e) := by
  unfold salvaParcial
  split_ifs
  · refine ⟨h.cont, ?_, h.buf, h.pend, h.trad, ?_, h.cham⟩
    · show (coage _).length = _
      rw [coage_length, h.len]
    · intro i l hl
      rcases h.slot i l hl with h1 | h1
      · left
        exact coage_getElem? _ _ _ h1
      · right
        exact h1
  · exact h

theorem Inv_passo (tr : Tradutor) (idioma : Str) (pre : List Str) (e : Estado) (linha : Str)
    (h : Inv tr idioma pre e) : Inv tr idioma (pre ++ [linha]) (passo tr idioma e linha) := by
  by_cases hc : includes linha doisPontos = true
  · by_cases hv : (valorOriginal linha).isEmpty = true
    · rw [passo_vazia tr idioma e linha hc hv]
      exact Inv_push tr idioma pre e linha _ h (esperado_vazia tr idioma _ linha hc hv)
    · have hv2 : (valorOriginal linha).isEmpty = false := by simpa using hv
      rw [passo_traduz tr idioma e linha hc hv2]
      apply Inv_salvaParcial
      have he := Inv_enfileira tr idioma pre e linha h hc hv2
      split_ifs
      · exact Inv_processaBuffer tr idioma _ _ he
      · exact he
  · have hc2 : includes linha doisPontos = false := by simpa using hc
    rw [passo_passthrough tr idioma e linha hc2]
    exact Inv_push tr idioma pre e linha _ h (esperado_passthrough tr idioma _ linha hc2)

theorem Inv_laco (tr : Tradutor) (idioma : Str) (ls : List Str) :
    ∀ (pre : List Str) (e : Estado), Inv tr idioma pre e →
      Inv tr idioma (pre ++ ls) (laco tr idioma ls e) := by
  induction ls with
  | nil => intro pre e h; simpa [laco] using h
  | cons l ls ih =>
    intro pre e h
    have := ih (pre ++ [l]) (passo tr idioma e l) (Inv_passo tr idioma pre e l h)
    simpa [laco] using this

/-- The invariant holds after the loop ran over any input. -/
theorem Inv_laco_inicial (tr : Tradutor) (idioma : Str) (ls : List Str) :
    Inv tr idioma ls (laco tr idioma ls Estado.inicial) := by
  simpa using Inv_laco tr idioma ls [] Estado.inicial (Inv_inicial tr idioma)

theorem finaliza_linhasTraduzidas (e : Estado) :
    (finaliza e).linhasTraduzidas =
      (if e.bufferPromises.length > 0 then processaBuffer e else e).linhasTraduzidas := rfl

/-- After the final drain every slot holds its intended line. -/
theorem finaliza_slot (tr : Tradutor) (idioma : Str) (pre : List Str) (e : Estado)
    (h : Inv tr idioma pre e) (i : Nat) (linha : Str) (hl : pre[i]? = some linha) :
    (finaliza e).linhasTraduzidas[i]? = some (some (esperado tr idioma i linha)) := by
  rw [finaliza_linhasTraduzidas]
  split_ifs with hb
  · exact processaBuffer_slot tr idioma pre e h i linha hl
  · rcases h.slot i linha hl with h1 | h1
    · exact h1
    · have : e.bufferIndices.length = 0 := by
        rw [h.buf]
        omega
      have : e.bufferIndices = [] := List.length_eq_zero.mp this
      rw [this] at h1
      simp at h1

theorem finaliza_length (tr : Tradutor) (idioma : Str) (pre : List Str) (e : Estado)
    (h : Inv tr idioma pre e) : (finaliza e).linhasTraduzidas.length = pre.length := by
  rw [finaliza_linhasTraduzidas]
  split_ifs with hb
  · exact (Inv_processaBuffer tr idioma pre e h).len
  · exact h.len

/-- No null is left in the buffer after the final drain. -/
theorem finaliza_sem_nulos (tr : Tradutor) (idioma : Str) (pre : List Str) (e : Estado)
    (h : Inv tr idioma pre e) : ∀ o ∈ (finaliza e).linhasTraduzidas, o ≠ none := by
  intro o ho
  obtain ⟨i, hi⟩ := List.mem_iff_getElem?.mp ho
  have hlt := lt_of_getElem?_eq_some _ _ _ hi
  rw [finaliza_length tr idioma pre e h] at hlt
  have hp : pre[i]? = some (pre[i]) := List.getElem?_eq_getElem hlt
  rw [finaliza_slot tr idioma pre e h i _ hp] at hi
  simp only [Option.some.injEq] at hi
  rw [← hi]
  simp

/-- The final filter returns the buffer itself. -/
theorem linhasFinal_map_some (tr : Tradutor) (idioma : Str) (linhas : List Str) :
    (linhasFinal tr idioma linhas).map some
      = (traduzirParaIdioma tr idioma linhas).linhasTraduzidas :=
  map_some_semNulos _ (finaliza_sem_nulos tr idioma linhas _ (Inv_laco_inicial tr idioma linhas))

theorem linhasFinal_length (tr : Tradutor) (idioma : Str) (linhas : List Str) :
    (linhasFinal tr idioma linhas).length = linhas.length := by
  have h1 := congrArg List.length (linhasFinal_map_some tr idioma linhas)
  rw [List.length_map] at h1
  rw [h1]
  exact finaliza_length tr idioma linhas _ (Inv_laco_inicial tr idioma linhas)

/-- Line by line, the final output is what the loop body intends for the
source line of the same index. -/
theorem linhasFinal_getElem? (tr : Tradutor) (idioma : Str) (linhas : List Str) (i : Nat)
    (linha : Str) (hl : linhas[i]? = some linha) :
    (linhasFinal tr idioma linhas)[i]? = some (esperado tr idioma i linha) := by
  have h1 := finaliza_slot tr idioma linhas _ (Inv_laco_inicial tr idioma linhas) i linha hl
  have h2 : (traduzirParaIdioma tr idioma linhas).linhasTraduzidas[i]?
      = some (some (esperado tr idioma i linha)) := h1
  rw [← linhasFinal_map_some, List.getElem?_map] at h2
  cases h3 : (linhasFinal tr idioma linhas)[i]? with
  | none => rw [h3] at h2; simp at h2
  | some x =>
    rw [h3] at h2
    simp at h2
    rw [h2]

theorem formata_eq (c t : Str) :
    formata c t = "  ".toList ++ c ++ ": '".toList ++ t ++ "'".toList := rfl

theorem formataVazia_eq (c : Str) :
    formataVazia c = "  ".toList ++ c ++ ": ''".toList := rfl

theorem includes_eq_false (linha : Str) (h : doisPontos ∉ linha) :
    includes linha doisPontos = false := by
  simpa [includes] using h

/-- The output line of a translatable entry, in terms of the text around its
first colon. -/
theorem esperado_entrada (tr : Tradutor) (idioma : Str) (i : Nat) (antes depois : Str)
    (hn : doisPontos ∉ antes) (hv : cleanValue depois ≠ []) :
    esperado tr idioma i (antes ++ doisPontos :: depois) =
      formata (trim antes)
        (traduzirLinha (tr i) (cleanValue depois) idioma tentativasPadrao esperaPadrao).texto := by
  obtain ⟨h1, -, h3, -, -, -, h7⟩ := primeiro_dois_pontos _ antes depois rfl hn
  have hv2 : (valorOriginal (antes ++ doisPontos :: depois)).isEmpty = false := by
    rw [h7]
    cases hc : cleanValue depois with
    | nil => exact absurd hc hv
    | cons a t => rfl
  rw [esperado_traduz tr idioma i _ h1 hv2, h3, h7]

/-- The output line of an entry whose value normalizes to the empty string. -/
theorem esperado_entrada_vazia (tr : Tradutor) (idioma : Str) (i : Nat) (antes depois : Str)
    (hn : doisPontos ∉ antes) (hv : cleanValue depois = []) :
    esperado tr idioma i (antes ++ doisPontos :: depois) = formataVazia (trim antes) := by
  obtain ⟨h1, -, h3, -, -, -, h7⟩ := primeiro_dois_pontos _ antes depois rfl hn
  have hv2 : (valorOriginal (antes ++ doisPontos :: depois)).isEmpty = true := by
    rw [h7, hv]
    rfl
  rw [esperado_vazia tr idioma i _ h1 hv2, h3]

theorem finaliza_chamadas (e : Estado) : (finaliza e).chamadas = e.chamadas := by
  unfold finaliza
  split_ifs <;> rfl

/-- Every collaborator call of a language pass belongs to a translatable
entry. -/
theorem chamadas_traduziveis (tr : Tradutor) (idioma : Str) (linhas : List Str) :
    ∀ p ∈ (traduzirParaIdioma tr idioma linhas).chamadas,
      ∃ linha, linhas[p.1]? = some linha ∧ includes linha doisPontos = true ∧
        (valorOriginal linha).isEmpty = false ∧ p.2 = valorOriginal linha := by
  intro p hp
  have : p ∈ (laco tr idioma linhas Estado.inicial).chamadas := by
    rw [← finaliza_chamadas]
    exact hp
  exact (Inv_laco_inicial tr idioma linhas).cham p this

/-- While the loop runs, a slot whose line has no colon holds that line. -/
theorem laco_passthrough_slot (tr : Tradutor) (idioma : Str) (pre : List Str) (i : Nat)
    (linha : Str) (hl : pre[i]? = some linha) (hc : doisPontos ∉ linha) :
    (laco tr idioma pre Estado.inicial).linhasTraduzidas[i]? = some (some linha) := by
  have h := Inv_laco_inicial tr idioma pre
  have hinc := includes_eq_false linha hc
  rcases h.slot i linha hl with h1 | h1
  · rw [h1, esperado_passthrough tr idioma i linha hinc]
  · obtain ⟨l, hl2, hc2, -⟩ := h.trad i h1
    rw [hl] at hl2
    simp only [Option.some.injEq] at hl2
    rw [← hl2, hinc] at hc2
    simp at hc2

/-! ## The claims on the language pass -/

/-- C1: at every index whose input line is a translatable entry (it has a
colon and the text after the first colon normalizes to a non-empty value) the
final output holds two spaces, the trimmed text before the first colon, a
colon, a space and, between apostrophes, the result of `traduzirLinha` on the
normalized value of that same line; for every input, language and
collaborator, checkpoints included. -/
theorem output_of_translatable_entry (tr : Tradutor) (idioma : Str) (linhas : List Str)
    (i : Nat) (antes depois : Str)
    (hl : linhas[i]? = some (antes ++ doisPontos :: depois))
    (hn : doisPontos ∉ antes) (hv : cleanValue depois ≠ []) :
    (linhasFinal tr idioma linhas)[i]? =
      some ("  ".toList ++ trim antes ++ ": '".toList ++
        (traduzirLinha (tr i) (cleanValue depois) idioma tentativasPadrao esperaPadrao).texto
        ++ "'".toList) := by
  rw [linhasFinal_getElem? tr idioma linhas i _ hl, esperado_entrada tr idioma i antes depois hn hv,
    formata_eq]

/-- Instance of `output_of_translatable_entry`: the line `titulo: 'Olá Mundo'`
with a collaborator that maps `Olá Mundo` to `Hello World`. -/
theorem output_of_translatable_entry_witness :
    (linhasFinal (dicionario "Olá Mundo".toList "Hello World".toList) "en".toList
        ["titulo: 'Olá Mundo'".toList])[0]? =
      some ("  ".toList ++ trim "titulo".toList ++ ": '".toList ++
        (traduzirLinha (dicionario "Olá Mundo".toList "Hello World".toList 0)
          (cleanValue " 'Olá Mundo'".toList) "en".toList tentativasPadrao esperaPadrao).texto
        ++ "'".toList) ∧
    "  ".toList ++ trim "titulo".toList ++ ": '".toList ++
        (traduzirLinha (dicionario "Olá Mundo".toList "Hello World".toList 0)
          (cleanValue " 'Olá Mundo'".toList) "en".toList tentativasPadrao esperaPadrao).texto
        ++ "'".toList = "  titulo: 'Hello World'".toList :=
  ⟨output_of_translatable_entry (dicionario "Olá Mundo".toList "Hello World".toList)
      "en".toList ["titulo: 'Olá Mundo'".toList] 0 "titulo".toList " 'Olá Mundo'".toList
      (by decide) (by decide) (by decide),
   by decide⟩

/-- C2: a line without a colon stands unchanged at its own index in the final
output, and from the iteration that reads it on, after every iteration of the
loop, its slot of `linhasTraduzidas` holds that line. -/
theorem passthrough_line_unchanged (tr : Tradutor) (idioma : Str) (linhas : List Str)
    (i : Nat) (linha : Str) (hl : linhas[i]? = some linha) (hc : doisPontos ∉ linha) :
    (linhasFinal tr idioma linhas)[i]? = some linha ∧
    (traduzirParaIdioma tr idioma linhas).linhasTraduzidas[i]? = some (some linha) ∧
    ∀ n, i < n →
      (laco tr idioma (linhas.take n) Estado.inicial).linhasTraduzidas[i]? = some (some linha) := by
  have hinc := includes_eq_false linha hc
  have h1 := linhasFinal_getElem? tr idioma linhas i linha hl
  rw [esperado_passthrough tr idioma i linha hinc] at h1
  refine ⟨h1, ?_, ?_⟩
  · rw [← linhasFinal_map_some, List.getElem?_map, h1]
    rfl
  · intro n hn
    apply laco_passthrough_slot tr idioma _ i linha _ hc
    rw [List.getElem?_take_of_lt hn, hl]

/-- Instance of `passthrough_line_unchanged`: a comment line between two
entries. -/
theorem passthrough_line_unchanged_witness :
    (linhasFinal (dicionario "Olá".toList "Hello".toList) "en".toList
        ["a: Olá".toList, "# comentário".toList, "b: Olá".toList])[1]?
      = some "# comentário".toList :=
  (passthrough_line_unchanged (dicionario "Olá".toList "Hello".toList) "en".toList
    ["a: Olá".toList, "# comentário".toList, "b: Olá".toList] 1 "# comentário".toList
    (by decide) (by decide)).1

/-- C3: the final output has exactly as many lines as the input, in the order
of the input; the final filter of nulls removes nothing, and this list is what
the last write of the output file receives. -/
theorem output_line_count (tr : Tradutor) (idioma : Str) (linhas : List Str) :
    (linhasFinal tr idioma linhas).length = linhas.length ∧
    (linhasFinal tr idioma linhas).map some
      = (traduzirParaIdioma tr idioma linhas).linhasTraduzidas ∧
    (∀ i (h : i < linhas.length),
      (linhasFinal tr idioma linhas)[i]? = some (esperado tr idioma i linhas[i])) ∧
    (traduzirParaIdioma tr idioma linhas).gravacoes.getLast?
      = some { linhas := linhasFinal tr idioma linhas, parcial := false } := by
  refine ⟨linhasFinal_length tr idioma linhas, linhasFinal_map_some tr idioma linhas, ?_, ?_⟩
  · intro i h
    exact linhasFinal_getElem? tr idioma linhas i _ (List.getElem?_eq_getElem h)
  · simp [traduzirParaIdioma, finaliza, linhasFinal]

/-- Instance of `output_line_count`: two lines without a colon and one entry,
target language `es`. -/
theorem output_line_count_witness :
    (linhasFinal (dicionario "Olá".toList "Hola".toList) "es".toList
        ["# um".toList, "saudacao: Olá".toList, "# dois".toList]).length = 3 ∧
    linhasFinal (dicionario "Olá".toList "Hola".toList) "es".toList
        ["# um".toList, "saudacao: Olá".toList, "# dois".toList]
      = ["# um".toList, "  saudacao: 'Hola'".toList, "# dois".toList] :=
  ⟨(output_line_count (dicionario "Olá".toList "Hola".toList) "es".toList
      ["# um".toList, "saudacao: Olá".toList, "# dois".toList]).1,
   by decide⟩

/-- C4: when every call of the collaborator fails, `traduzirLinha` with its
default arguments returns the text it was given, and the final output line of
such an entry carries the normalized value of the source line between the
apostrophes. -/
theorem retry_exhaustion_returns_original :
    (∀ (translate : Oraculo) (valor idioma : Str),
      (∀ n, ∃ msg, translate n valor idioma = .error msg) →
      (traduzirLinha translate valor idioma tentativasPadrao esperaPadrao).texto = valor) ∧
    (∀ (tr : Tradutor) (idioma : Str) (linhas : List Str) (i : Nat) (antes depois : Str),
      linhas[i]? = some (antes ++ doisPontos :: depois) → doisPontos ∉ antes →
      cleanValue depois ≠ [] →
      (∀ n, ∃ msg, tr i n (cleanValue depois) idioma = .error msg) →
      (linhasFinal tr idioma linhas)[i]? =
        some ("  ".toList ++ trim antes ++ ": '".toList ++ cleanValue depois ++ "'".toList)) := by
  constructor
  · intro translate valor idioma h
    exact (traduzirLinha_falha valor idioma tentativasPadrao translate esperaPadrao h).1
  · intro tr idioma linhas i antes depois hl hn hv hf
    rw [linhasFinal_getElem? tr idioma linhas i _ hl,
      esperado_entrada tr idioma i antes depois hn hv, formata_eq,
      (traduzirLinha_falha (cleanValue depois) idioma tentativasPadrao (tr i) esperaPadrao hf).1]

/-- Instance of `retry_exhaustion_returns_original` with a collaborator that
always fails. -/
theorem retry_exhaustion_returns_original_witness :
    (traduzirLinha (sempreFalha "timeout".toList) "Olá".toList "en".toList
        tentativasPadrao esperaPadrao).texto = "Olá".toList ∧
    (linhasFinal (fun _ => sempreFalha "timeout".toList) "en".toList
        ["titulo: 'Olá'".toList])[0]? =
      some ("  ".toList ++ trim "titulo".toList ++ ": '".toList ++
        cleanValue " 'Olá'".toList ++ "'".toList) :=
  ⟨retry_exhaustion_returns_original.1 (sempreFalha "timeout".toList) "Olá".toList "en".toList
      (fun _ => ⟨"timeout".toList, rfl⟩),
   retry_exhaustion_returns_original.2 (fun _ => sempreFalha "timeout".toList) "en".toList
      ["titulo: 'Olá'".toList] 0 "titulo".toList " 'Olá'".toList
      (by decide) (by decide) (by decide) (fun _ => ⟨"timeout".toList, rfl⟩)⟩

/-- C5, as stated, fails: with the default arguments and a collaborator that
always fails the log receives six records, not five. -/
theorem six_failure_records :
    (traduzirLinha (sempreFalha "timeout".toList) "Olá".toList "en".toList
        tentativasPadrao esperaPadrao).registros.length = 6 ∧
    (traduzirLinha (sempreFalha "timeout".toList) "Olá".toList "en".toList
        tentativasPadrao esperaPadrao).registros.length ≠ 5 := by
  decide

/-- C5, amended: when every call of the collaborator fails, `traduzirLinha`
with its default arguments makes six calls (the first one and five retries) and
the log of the target language receives exactly six records, each for that
text. -/
theorem retry_exhaustion_log_records (translate : Oraculo) (valor idioma : Str)
    (h : ∀ n, ∃ msg, translate n valor idioma = .error msg) :
    (traduzirLinha translate valor idioma tentativasPadrao esperaPadrao).registros.length = 6 ∧
    (traduzirLinha translate valor idioma tentativasPadrao esperaPadrao).chamadas.length = 6 ∧
    (∀ r ∈ (traduzirLinha translate valor idioma tentativasPadrao esperaPadrao).registros,
      r.valor = valor ∧ r.idioma = idioma) := by
  have := traduzirLinha_falha valor idioma tentativasPadrao translate esperaPadrao h
  exact ⟨this.2.1, this.2.2.1, this.2.2.2⟩

/-- Instance of `retry_exhaustion_log_records` with a collaborator that always
fails. -/
theorem retry_exhaustion_log_records_witness :
    (traduzirLinha (sempreFalha "timeout".toList) "Olá".toList "en".toList
        tentativasPadrao esperaPadrao).registros.length = 6 :=
  (retry_exhaustion_log_records (sempreFalha "timeout".toList) "Olá".toList "en".toList
    (fun _ => ⟨"timeout".toList, rfl⟩)).1

/-- C8: an entry whose text after the first colon normalizes to the empty
string gives, at its own index of the final output, two spaces, the trimmed
key, a colon, a space and two apostrophes, and no call of the collaborator in
the whole pass belongs to that line. -/
theorem empty_value_entry (tr : Tradutor) (idioma : Str) (linhas : List Str)
    (i : Nat) (antes depois : Str)
    (hl : linhas[i]? = some (antes ++ doisPontos :: depois))
    (hn : doisPontos ∉ antes) (hv : cleanValue depois = []) :
    (linhasFinal tr idioma linhas)[i]? = some ("  ".toList ++ trim antes ++ ": ''".toList) ∧
    ∀ p ∈ (traduzirParaIdioma tr idioma linhas).chamadas, p.1 ≠ i := by
  constructor
  · rw [linhasFinal_getElem? tr idioma linhas i _ hl,
      esperado_entrada_vazia tr idioma i antes depois hn hv, formataVazia_eq]
  · intro p hp hpi
    obtain ⟨l, hl2, -, hv2, -⟩ := chamadas_traduziveis tr idioma linhas p hp
    rw [hpi, hl] at hl2
    simp only [Option.some.injEq] at hl2
    rw [← hl2, (primeiro_dois_pontos _ antes depois rfl hn).2.2.2.2.2.2, hv] at hv2
    simp at hv2

/-- Instance of `empty_value_entry`: the line `vazio: ''` next to a
translatable entry. -/
theorem empty_value_entry_witness :
    (linhasFinal (dicionario "Olá".toList "Hello".toList) "en".toList
        ["vazio: ''".toList, "a: Olá".toList])[0]?
      = some ("  ".toList ++ trim "vazio".toList ++ ": ''".toList) ∧
    (traduzirParaIdioma (dicionario "Olá".toList "Hello".toList) "en".toList
        ["vazio: ''".toList, "a: Olá".toList]).chamadas = [(1, "Olá".toList)] :=
  ⟨(empty_value_entry (dicionario "Olá".toList "Hello".toList) "en".toList
      ["vazio: ''".toList, "a: Olá".toList] 0 "vazio".toList " ''".toList
      (by decide) (by decide) (by decide)).1,
   by decide⟩

/-! ## Partial saves -/

theorem semNulos_map_some (ls : List Str) : semNulos (ls.map some) = ls := by
  induction ls with
  | nil => rfl
  | cons a t ih =>
    simp [semNulos] at ih ⊢

/-- Over lines without a colon the loop only appends and counts. -/
theorem laco_passthrough (tr : Tradutor) (idioma : Str) (ls : List Str)
    (h : ∀ l ∈ ls, includes l doisPontos = false) :
    ∀ e : Estado, laco tr idioma ls e =
      { e with
        linhasTraduzidas := e.linhasTraduzidas ++ ls.map some
        contador := e.contador + ls.length } := by
  induction ls with
  | nil => intro e; simp [laco]
  | cons l ls ih =>
    intro e
    have hl := h l (by simp)
    have ht : ∀ x ∈ ls, includes x doisPontos = false := fun x hx => h x (by simp [hx])
    have := ih ht (passo tr idioma e l)
    simp only [laco, List.foldl_cons] at this ⊢
    rw [this, passo_passthrough tr idioma e l hl]
    simp [Nat.add_assoc, Nat.add_comm 1]

theorem coage_append (a b : List (Option Str)) : coage (a ++ b) = coage a ++ coage b := by
  simp [coage]

theorem coage_map_some (ls : List Str) : coage (ls.map some) = ls.map some := by
  induction ls with
  | nil => rfl
  | cons a t ih =>
    simp only [coage, List.map_cons, List.map_map] at ih ⊢
    rw [ih]

theorem semNulos_append (a b : List (Option Str)) :
    semNulos (a ++ b) = semNulos a ++ semNulos b := by
  simp [semNulos, List.filterMap_append]

/-- When the 500th line read is a translatable entry, the partial save is
written while its job is pending, with the empty string in its slot, and the
final output still carries the result of the job there. -/
theorem salva_parcial_com_pendente (tr : Tradutor) (idioma : Str) (ls : List Str) (entrada : Str)
    (h : ∀ l ∈ ls, includes l doisPontos = false) (hlen : ls.length = 499)
    (hc : includes entrada doisPontos = true) (hv : (valorOriginal entrada).isEmpty = false) :
    (laco tr idioma (ls ++ [entrada]) Estado.inicial).gravacoes
      = [{ linhas := ls ++ [[]], parcial := true }] ∧
    (laco tr idioma (ls ++ [entrada]) Estado.inicial).linhasTraduzidas
      = ls.map some ++ [some []] ∧
    (linhasFinal tr idioma (ls ++ [entrada]))[499]? =
      some (formata (chave entrada)
        (traduzirLinha (tr 499) (valorOriginal entrada) idioma
          tentativasPadrao esperaPadrao).texto) := by
  have e1 : laco tr idioma (ls ++ [entrada]) Estado.inicial
      = passo tr idioma (laco tr idioma ls Estado.inicial) entrada := by
    simp [laco, List.foldl_append]
  have hfin : (linhasFinal tr idioma (ls ++ [entrada]))[499]? =
      some (esperado tr idioma 499 entrada) :=
    linhasFinal_getElem? tr idioma _ 499 entrada (by rw [← hlen]; simp)
  rw [esperado_traduz tr idioma 499 entrada hc hv] at hfin
  have e2 : coage (List.map some ls ++ [none]) = List.map some ls ++ [some []] := by
    rw [coage_append, coage_map_some]
    rfl
  have e3 : semNulos (List.map some ls ++ [some []]) = ls ++ [[]] := by
    rw [semNulos_append, semNulos_map_some]
    rfl
  refine ⟨?_, ?_, hfin⟩
  · rw [e1, laco_passthrough tr idioma ls h, passo_traduz tr idioma _ entrada hc hv]
    simp [enfileira, Estado.inicial, salvaParcial, hlen, e2, e3]
  · rw [e1, laco_passthrough tr idioma ls h, passo_traduz tr idioma _ entrada hc hv]
    simp [enfileira, Estado.inicial, salvaParcial, hlen, e2]

/-- Over an input without any colon the pass writes the output file once, at
the end. -/
theorem passthrough_sem_parcial (tr : Tradutor) (idioma : Str) (ls : List Str)
    (h : ∀ l ∈ ls, includes l doisPontos = false) :
    (laco tr idioma ls Estado.inicial).contador = ls.length ∧
    (laco tr idioma ls Estado.inicial).gravacoes = [] ∧
    (traduzirParaIdioma tr idioma ls).gravacoes = [{ linhas := ls, parcial := false }] := by
  refine ⟨?_, ?_, ?_⟩
  · rw [laco_passthrough _ _ _ h]
    simp [Estado.inicial]
  · rw [laco_passthrough _ _ _ h]
    simp [Estado.inicial]
  · rw [traduzirParaIdioma, laco_passthrough _ _ _ h]
    simp [Estado.inicial, finaliza, semNulos_map_some]

/-- C10 at its failing input: over 500 lines without a colon the loop reaches
`contador = 500` without any partial save; the only write of the pass is the
final one. -/
theorem no_partial_save_on_passthrough :
    (laco (dicionario [] []) "en".toList (List.replicate 500 "# comentário".toList)
        Estado.inicial).contador = 500 ∧
    (laco (dicionario [] []) "en".toList (List.replicate 500 "# comentário".toList)
        Estado.inicial).gravacoes = [] ∧
    (traduzirParaIdioma (dicionario [] []) "en".toList
        (List.replicate 500 "# comentário".toList)).gravacoes
      = [{ linhas := List.replicate 500 "# comentário".toList, parcial := false }] := by
  have h : ∀ l ∈ List.replicate 500 "# comentário".toList, includes l doisPontos = false := by
    intro l hl
    rw [List.eq_of_mem_replicate hl]
    decide
  have := passthrough_sem_parcial (dicionario [] []) "en".toList _ h
  rw [List.length_replicate] at this
  exact this

/-! ## The retry chain -/

/-- The `catch` branch with attempts left: the chain goes on with one attempt
less and twice the delay. -/
theorem traduzirLinha_retry (translate : Oraculo) (valor idioma msg : Str) (t espera : Nat)
    (h : translate 0 valor idioma = .error msg) :
    traduzirLinha translate valor idioma (t + 1) espera =
      { texto := (traduzirLinha (fun n => translate (n + 1)) valor idioma t (espera * 2)).texto
        registros := { idioma := idioma, valor := valor, mensagem := msg } ::
          (traduzirLinha (fun n => translate (n + 1)) valor idioma t (espera * 2)).registros
        chamadas := valor ::
          (traduzirLinha (fun n => translate (n + 1)) valor idioma t (espera * 2)).chamadas
        esperas := espera ::
          (traduzirLinha (fun n => translate (n + 1)) valor idioma t (espera * 2)).esperas } := by
  rw [traduzirLinha]
  simp [h]

/-- The `catch` branch without attempts left. -/
theorem traduzirLinha_exhausted (translate : Oraculo) (valor idioma msg : Str) (espera : Nat)
    (h : translate 0 valor idioma = .error msg) :
    traduzirLinha translate valor idioma 0 espera =
      { texto := valor
        registros := [{ idioma := idioma, valor := valor, mensagem := msg }]
        chamadas := [valor]
        esperas := [] } := by
  rw [traduzirLinha]
  simp [h]

/-- The `try` branch. -/
theorem traduzirLinha_ok (translate : Oraculo) (valor idioma res : Str) (t espera : Nat)
    (h : translate 0 valor idioma = .ok res) :
    traduzirLinha translate valor idioma t espera =
      { texto := semQuebras res, registros := [], chamadas := [valor], esperas := [] } := by
  cases t <;> (rw [traduzirLinha]; simp [h])

theorem falhou_cases (r : Except Str Str) :
    (∃ msg, r = .error msg ∧ falhou r = true) ∨ (∃ res, r = .ok res ∧ falhou r = false) := by
  cases r with
  | error msg => exact Or.inl ⟨msg, rfl, rfl⟩
  | ok res => exact Or.inr ⟨res, rfl, rfl⟩

/-- The delay before the retry number `k` is the first delay doubled `k`
times. -/
theorem traduzirLinha_esperas (valor idioma : Str) (t : Nat) :
    ∀ (translate : Oraculo) (espera k x : Nat),
      (traduzirLinha translate valor idioma t espera).esperas[k]? = some x →
      x = espera * 2 ^ k := by
  induction t with
  | zero =>
    intro translate espera k x h
    rcases falhou_cases (translate 0 valor idioma) with ⟨msg, h0, -⟩ | ⟨res, h0, -⟩
    · rw [traduzirLinha_exhausted _ _ _ _ _ h0] at h
      simp at h
    · rw [traduzirLinha_ok _ _ _ _ _ _ h0] at h
      simp at h
  | succ n ih =>
    intro translate espera k x h
    rcases falhou_cases (translate 0 valor idioma) with ⟨msg, h0, -⟩ | ⟨res, h0, -⟩
    · rw [traduzirLinha_retry _ _ _ _ _ _ h0] at h
      cases k with
      | zero =>
        simp at h
        simp [h]
      | succ k =>
        simp only [List.getElem?_cons_succ] at h
        rw [ih _ _ _ _ h, Nat.pow_succ]
        ring
    · rw [traduzirLinha_ok _ _ _ _ _ _ h0] at h
      simp at h

/-- A chain makes one call more than it waits, and waits at most `tentativas`
times. -/
theorem traduzirLinha_contagem (valor idioma : Str) (t : Nat) :
    ∀ (translate : Oraculo) (espera : Nat),
      (traduzirLinha translate valor idioma t espera).chamadas.length
        = (traduzirLinha translate valor idioma t espera).esperas.length + 1 ∧
      (traduzirLinha translate valor idioma t espera).esperas.length ≤ t := by
  induction t with
  | zero =>
    intro translate espera
    rcases falhou_cases (translate 0 valor idioma) with ⟨msg, h0, -⟩ | ⟨res, h0, -⟩
    · rw [traduzirLinha_exhausted _ _ _ _ _ h0]
      simp
    · rw [traduzirLinha_ok _ _ _ _ _ _ h0]
      simp
  | succ n ih =>
    intro translate espera
    rcases falhou_cases (translate 0 valor idioma) with ⟨msg, h0, -⟩ | ⟨res, h0, -⟩
    · rw [traduzirLinha_retry _ _ _ _ _ _ h0]
      have := ih (fun k => translate (k + 1)) (espera * 2)
      simp only [List.length_cons]
      omega
    · rw [traduzirLinha_ok _ _ _ _ _ _ h0]
      simp

/-- The delays of a chain all of whose calls fail. -/
theorem traduzirLinha_falha_esperas (valor idioma : Str) (t : Nat) :
    ∀ (translate : Oraculo) (espera : Nat),
      (∀ n, ∃ msg, translate n valor idioma = .error msg) →
      (traduzirLinha translate valor idioma t espera).esperas
        = (List.range t).map (fun k => espera * 2 ^ k) := by
  induction t with
  | zero =>
    intro translate espera h
    obtain ⟨msg, h0⟩ := h 0
    rw [traduzirLinha_exhausted _ _ _ _ _ h0]
    rfl
  | succ n ih =>
    intro translate espera h
    obtain ⟨msg, h0⟩ := h 0
    rw [traduzirLinha_retry _ _ _ _ _ _ h0, ih _ _ (fun k => h (k + 1)), List.range_succ_eq_map]
    simp only [List.map_cons, List.map_map, pow_zero, Nat.mul_one, List.cons.injEq, true_and]
    apply List.map_congr_left
    intro k _
    simp only [Function.comp, Nat.succ_eq_add_one, Nat.pow_succ]
    ring

/-- The first successful call, reached with attempts left, decides the result:
the chain stops there after `k` failures. -/
theorem traduzirLinha_sucesso (valor idioma r : Str) (k : Nat) :
    ∀ (translate : Oraculo) (t espera : Nat), k ≤ t →
      (∀ j, j < k → ∃ msg, translate j valor idioma = .error msg) →
      translate k valor idioma = .ok r →
      (traduzirLinha translate valor idioma t espera).texto = semQuebras r ∧
      (traduzirLinha translate valor idioma t espera).chamadas.length = k + 1 ∧
      (traduzirLinha translate valor idioma t espera).registros.length = k := by
  induction k with
  | zero =>
    intro translate t espera _ _ hs
    rw [traduzirLinha_ok _ _ _ _ _ _ hs]
    simp
  | succ k ih =>
    intro translate t espera hk hf hs
    obtain ⟨msg, h0⟩ := hf 0 (by omega)
    cases t with
    | zero => omega
    | succ t =>
      rw [traduzirLinha_retry _ _ _ _ _ _ h0]
      have := ih (fun n => translate (n + 1)) t (espera * 2) (by omega)
        (fun j hj => hf (j + 1) (by omega)) hs
      simp [this.1, this.2.1, this.2.2]

theorem semQuebras_length (s : Str) : (semQuebras s).length = s.length := by
  simp [semQuebras]

theorem novaLinha_ne_space : novaLinha ≠ ' ' := by decide

theorem semQuebras_sem_novaLinha (s : Str) : novaLinha ∉ semQuebras s := by
  intro h
  simp only [semQuebras, List.mem_map] at h
  obtain ⟨c, -, hc⟩ := h
  split_ifs at hc with h1
  · exact novaLinha_ne_space hc.symm
  · exact h1 hc

theorem semQuebras_getElem? (s : Str) (i : Nat) (h : i < s.length) :
    (semQuebras s)[i]? = some (if s[i] = novaLinha then ' ' else s[i]) := by
  simp [semQuebras, List.getElem?_eq_getElem h]

theorem countP_range_succ (p : Nat → Bool) (n : Nat) :
    (List.range (n + 1)).countP p
      = (if p 0 then 1 else 0) + (List.range n).countP (fun j => p (j + 1)) := by
  rw [List.range_succ_eq_map, List.countP_cons, List.countP_map]
  simp only [Function.comp_def, Nat.succ_eq_add_one]
  omega

/-- One log record per failed call, and every call but the last one failed. -/
theorem traduzirLinha_registros (valor idioma : Str) (t : Nat) :
    ∀ (translate : Oraculo) (espera : Nat),
      (traduzirLinha translate valor idioma t espera).registros.length
        = (List.range (traduzirLinha translate valor idioma t espera).chamadas.length).countP
            (fun j => falhou (translate j valor idioma)) ∧
      (∀ j, j + 1 < (traduzirLinha translate valor idioma t espera).chamadas.length →
        falhou (translate j valor idioma) = true) := by
  induction t with
  | zero =>
    intro translate espera
    rcases falhou_cases (translate 0 valor idioma) with ⟨msg, h0, hf⟩ | ⟨res, h0, hf⟩
    · rw [traduzirLinha_exhausted _ _ _ _ _ h0]
      simp [List.range_succ, hf]
    · rw [traduzirLinha_ok _ _ _ _ _ _ h0]
      simp [List.range_succ, hf]
  | succ n ih =>
    intro translate espera
    rcases falhou_cases (translate 0 valor idioma) with ⟨msg, h0, hf⟩ | ⟨res, h0, hf⟩
    · rw [traduzirLinha_retry _ _ _ _ _ _ h0]
      obtain ⟨h1, h2⟩ := ih (fun k => translate (k + 1)) (espera * 2)
      simp only [List.length_cons]
      constructor
      · rw [countP_range_succ, h1, hf]
        simp only [if_true]
        omega
      · intro j hj
        cases j with
        | zero => exact hf
        | succ j => exact h2 j (by omega)
    · rw [traduzirLinha_ok _ _ _ _ _ _ h0]
      simp [List.range_succ, hf]

/-- C11: in `traduzirLinha` called with its default arguments the delay before
the retry number `k` (from 0) is `1000 * 2 ^ k` milliseconds; each retry runs
with `tentativas - 1` and `espera * 2`; a chain makes one call more than it
waits; and when every call fails the delays are 1000, 2000, 4000, 8000 and
16000, one less than the failures logged, so no delay follows the last failed
attempt. -/
theorem backoff_waits (translate : Oraculo) (valor idioma : Str) :
    (∀ k x, (traduzirLinha translate valor idioma tentativasPadrao esperaPadrao).esperas[k]?
        = some x → x = 1000 * 2 ^ k) ∧
    (traduzirLinha translate valor idioma tentativasPadrao esperaPadrao).chamadas.length
      = (traduzirLinha translate valor idioma tentativasPadrao esperaPadrao).esperas.length + 1 ∧
    (∀ (t espera : Nat) (msg : Str), translate 0 valor idioma = .error msg →
      (traduzirLinha translate valor idioma (t + 1) espera).esperas
        = espera :: (traduzirLinha (fun n => translate (n + 1)) valor idioma t
            (espera * 2)).esperas ∧
      (traduzirLinha translate valor idioma (t + 1) espera).texto
        = (traduzirLinha (fun n => translate (n + 1)) valor idioma t (espera * 2)).texto) ∧
    ((∀ n, ∃ msg, translate n valor idioma = .error msg) →
      (traduzirLinha translate valor idioma tentativasPadrao esperaPadrao).esperas
        = [1000, 2000, 4000, 8000, 16000] ∧
      (traduzirLinha translate valor idioma tentativasPadrao esperaPadrao).registros.length
        = (traduzirLinha translate valor idioma tentativasPadrao esperaPadrao).esperas.length
          + 1) := by
  refine ⟨?_, ?_, ?_, ?_⟩
  · intro k x h
    exact traduzirLinha_esperas valor idioma tentativasPadrao translate esperaPadrao k x h
  · exact (traduzirLinha_contagem valor idioma tentativasPadrao translate esperaPadrao).1
  · intro t espera msg h0
    rw [traduzirLinha_retry _ _ _ _ _ _ h0]
    exact ⟨rfl, rfl⟩
  · intro h
    have h1 := traduzirLinha_falha_esperas valor idioma tentativasPadrao translate esperaPadrao h
    have h2 := (traduzirLinha_falha valor idioma tentativasPadrao translate esperaPadrao h).2.1
    rw [h1, h2]
    exact ⟨by decide, by decide⟩

/-- Instance of `backoff_waits` with a collaborator that always fails. -/
theorem backoff_waits_witness :
    (traduzirLinha (sempreFalha "timeout".toList) "Olá".toList "en".toList
        tentativasPadrao esperaPadrao).esperas = [1000, 2000, 4000, 8000, 16000] ∧
    (traduzirLinha (sempreFalha "timeout".toList) "Olá".toList "en".toList
        tentativasPadrao esperaPadrao).registros.length
      = (traduzirLinha (sempreFalha "timeout".toList) "Olá".toList "en".toList
          tentativasPadrao esperaPadrao).esperas.length + 1 :=
  (backoff_waits (sempreFalha "timeout".toList) "Olá".toList "en".toList).2.2.2
    (fun _ => ⟨"timeout".toList, rfl⟩)

/-- C12: when the call number `k` of a chain is its first success, reached
with attempts left, and answers `r`, `traduzirLinha` returns `r` with every
newline replaced by one space: same length, position by position, no newline
left; after failures too it is this text, not the original, that is
returned. -/
theorem success_strips_newlines (translate : Oraculo) (valor idioma r : Str)
    (tentativas espera k : Nat) (hk : k ≤ tentativas)
    (hf : ∀ j, j < k → ∃ msg, translate j valor idioma = .error msg)
    (hs : translate k valor idioma = .ok r) :
    (traduzirLinha translate valor idioma tentativas espera).texto
      = r.map (fun c => if c = novaLinha then ' ' else c) ∧
    (traduzirLinha translate valor idioma tentativas espera).texto.length = r.length ∧
    novaLinha ∉ (traduzirLinha translate valor idioma tentativas espera).texto ∧
    (∀ i (h : i < r.length),
      (traduzirLinha translate valor idioma tentativas espera).texto[i]?
        = some (if r[i] = novaLinha then ' ' else r[i])) := by
  have h := (traduzirLinha_sucesso valor idioma r k translate tentativas espera hk hf hs).1
  rw [h]
  exact ⟨rfl, semQuebras_length r, semQuebras_sem_novaLinha r, semQuebras_getElem? r⟩

/-- Instance of `success_strips_newlines`: two failures, then an answer of two
lines. -/
theorem success_strips_newlines_witness :
    (traduzirLinha (falhaDepois 2 "Hello\nWorld".toList) "Olá".toList "en".toList
        tentativasPadrao esperaPadrao).texto = "Hello World".toList :=
  (success_strips_newlines (falhaDepois 2 "Hello\nWorld".toList) "Olá".toList "en".toList
    "Hello\nWorld".toList tentativasPadrao esperaPadrao 2 (by decide)
    (fun j hj => ⟨"indisponível".toList, by simp [falhaDepois, hj]⟩) (by simp [falhaDepois])).1

/-- C16: for every `tentativas` and every collaborator the retry chain of
`traduzirLinha` ends after at most `tentativas + 1` calls; every call before
the last one failed, so the chain stops at its first success; the log receives
one record per failed call; and when every call fails both numbers are
`tentativas + 1`. -/
theorem retry_chain_bound (translate : Oraculo) (valor idioma : Str) (tentativas espera : Nat) :
    1 ≤ (traduzirLinha translate valor idioma tentativas espera).chamadas.length ∧
    (traduzirLinha translate valor idioma tentativas espera).chamadas.length ≤ tentativas + 1 ∧
    (∀ j, j + 1 < (traduzirLinha translate valor idioma tentativas espera).chamadas.length →
      falhou (translate j valor idioma) = true) ∧
    (∀ k r, k ≤ tentativas → (∀ j, j < k → ∃ msg, translate j valor idioma = .error msg) →
      translate k valor idioma = .ok r →
      (traduzirLinha translate valor idioma tentativas espera).chamadas.length = k + 1 ∧
      (traduzirLinha translate valor idioma tentativas espera).registros.length = k) ∧
    (traduzirLinha translate valor idioma tentativas espera).registros.length
      = (List.range (traduzirLinha translate valor idioma tentativas espera).chamadas.length).countP
          (fun j => falhou (translate j valor idioma)) ∧
    ((∀ n, ∃ msg, translate n valor idioma = .error msg) →
      (traduzirLinha translate valor idioma tentativas espera).chamadas.length = tentativas + 1 ∧
      (traduzirLinha translate valor idioma tentativas espera).registros.length
        = tentativas + 1) := by
  have hc := traduzirLinha_contagem valor idioma tentativas translate espera
  have hr := traduzirLinha_registros valor idioma tentativas translate espera
  refine ⟨by omega, by omega, hr.2, ?_, hr.1, ?_⟩
  · intro k r hk hf hs
    exact (traduzirLinha_sucesso valor idioma r k translate tentativas espera hk hf hs).2
  · intro h
    have := traduzirLinha_falha valor idioma tentativas translate espera h
    exact ⟨this.2.2.1, this.2.1⟩

/-- Instance of `retry_chain_bound`: three attempts allowed, success at the
third call. -/
theorem retry_chain_bound_witness :
    (traduzirLinha (falhaDepois 2 "Hello".toList) "Olá".toList "en".toList 3 1000).chamadas.length
      = 3 ∧
    (traduzirLinha (falhaDepois 2 "Hello".toList) "Olá".toList "en".toList 3 1000).registros.length
      = 2 :=
  (retry_chain_bound (falhaDepois 2 "Hello".toList) "Olá".toList "en".toList 3 1000).2.2.2.1
    2 "Hello".toList (by decide)
    (fun j hj => ⟨"indisponível".toList, by simp [falhaDepois, hj]⟩) (by simp [falhaDepois])

/-! ## Batches -/

theorem indicesTraduziveis_snoc (pre : List Str) (l : Str) :
    indicesTraduziveis (pre ++ [l])
      = indicesTraduziveis pre ++ (if traduzivel l then [pre.length] else []) := by
  unfold indicesTraduziveis
  rw [List.length_append, List.length_singleton, List.range_succ, List.filter_append]
  congr 1
  · apply List.filter_congr
    intro i hi
    have hlt : i < pre.length := List.mem_range.mp hi
    simp only [traduzivelEm, List.getElem?_append_left hlt]
  · by_cases ht : traduzivel l = true <;> simp [traduzivelEm, ht]

theorem traduzivel_of (linha : Str) (hc : includes linha doisPontos = true)
    (hv : (valorOriginal linha).isEmpty = false) : traduzivel linha = true := by
  simp [traduzivel, hc, hv]

theorem traduzivel_passthrough (linha : Str) (hc : includes linha doisPontos = false) :
    traduzivel linha = false := by
  simp [traduzivel, hc]

theorem traduzivel_vazia (linha : Str) (hv : (valorOriginal linha).isEmpty = true) :
    traduzivel linha = false := by
  simp [traduzivel, hv]

theorem salvaParcial_bufferIndices (e : Estado) :
    (salvaParcial e).bufferIndices = e.bufferIndices := by
  unfold salvaParcial
  split_ifs <;> rfl

theorem salvaParcial_bufferPromises (e : Estado) :
    (salvaParcial e).bufferPromises = e.bufferPromises := by
  unfold salvaParcial
  split_ifs <;> rfl

theorem salvaParcial_lotes (e : Estado) : (salvaParcial e).lotes = e.lotes := by
  unfold salvaParcial
  split_ifs <;> rfl

theorem salvaParcial_contador (e : Estado) : (salvaParcial e).contador = e.contador := by
  unfold salvaParcial
  split_ifs <;> rfl

theorem salvaParcial_linhasTraduzidas (e : Estado) :
    (salvaParcial e).linhasTraduzidas = e.linhasTraduzidas ∨
    (salvaParcial e).linhasTraduzidas = coage e.linhasTraduzidas := by
  unfold salvaParcial
  split_ifs
  · right; rfl
  · left; rfl

theorem coage_pendente (l : List (Option Str)) (i : Nat)
    (h : l[i]? = some none ∨ l[i]? = some (some [])) : (coage l)[i]? = some (some []) := by
  rcases h with h | h <;> simp [coage, h]

/-- The two branches that write the output line at once keep the invariant of
the buffer. -/
theorem InvLotes_push (pre : List Str) (e : Estado) (linha s : Str)
    (h : InvLotes pre e) (ht : traduzivel linha = false) :
    InvLotes (pre ++ [linha])
      { e with
        linhasTraduzidas := e.linhasTraduzidas ++ [some s]
        contador := e.contador + 1 } := by
  refine ⟨h.max, h.cinco, ?_, ?_⟩
  · rw [indicesTraduziveis_snoc, ht]
    simpa using h.ordem
  · intro i hi
    rcases h.pendente i hi with h1 | h1
    · left
      exact getElem?_snoc_of_some _ _ _ _ h1
    · right
      exact getElem?_snoc_of_some _ _ _ _ h1

/-- The invariant of the buffer is kept by one iteration of the loop. -/
theorem InvLotes_passo (tr : Tradutor) (idioma : Str) (pre : List Str) (e : Estado)
    (linha : Str) (hI : Inv tr idioma pre e) (h : InvLotes pre e) :
    InvLotes (pre ++ [linha]) (passo tr idioma e linha) := by
  by_cases hc : includes linha doisPontos = true
  · by_cases hv : (valorOriginal linha).isEmpty = true
    · rw [passo_vazia tr idioma e linha hc hv]
      exact InvLotes_push pre e linha _ h (traduzivel_vazia linha hv)
    · have hv2 : (valorOriginal linha).isEmpty = false := by simpa using hv
      rw [passo_traduz tr idioma e linha hc hv2]
      have hord : e.lotes.flatten ++ (enfileira tr idioma e linha).bufferIndices
          = indicesTraduziveis (pre ++ [linha]) := by
        rw [indicesTraduziveis_snoc, traduzivel_of linha hc hv2, ← h.ordem]
        simp [enfileira, hI.cont]
      have hlen : (enfileira tr idioma e linha).bufferIndices.length
          = e.bufferIndices.length + 1 := by simp [enfileira]
      have hlenP : (enfileira tr idioma e linha).bufferPromises.length
          = e.bufferIndices.length + 1 := by simp [enfileira, hI.buf]
      have hpend : ∀ i ∈ (enfileira tr idioma e linha).bufferIndices,
          (enfileira tr idioma e linha).linhasTraduzidas[i]? = some none ∨
          (enfileira tr idioma e linha).linhasTraduzidas[i]? = some (some []) := by
        intro i hi
        simp only [enfileira, List.mem_append, List.mem_singleton] at hi
        rcases hi with hi | hi
        · rcases h.pendente i hi with h1 | h1
          · left
            exact getElem?_snoc_of_some _ _ _ _ h1
          · right
            exact getElem?_snoc_of_some _ _ _ _ h1
        · left
          show (e.linhasTraduzidas ++ [none])[i]? = _
          rw [hi, hI.cont, ← hI.len]
          simp
      have hmax := h.max
      split_ifs with h5
      · refine ⟨?_, ?_, ?_, ?_⟩
        · rw [salvaParcial_bufferIndices]
          simp [processaBuffer]
        · rw [salvaParcial_lotes]
          intro b hb
          simp only [processaBuffer, List.mem_append, List.mem_singleton] at hb
          rcases hb with hb | hb
          · exact h.cinco b hb
          · rw [hb, hlen]
            omega
        · rw [salvaParcial_lotes, salvaParcial_bufferIndices]
          simpa [processaBuffer, enfileira] using hord
        · rw [salvaParcial_bufferIndices]
          intro i hi
          simp [processaBuffer] at hi
      · refine ⟨?_, ?_, ?_, ?_⟩
        · rw [salvaParcial_bufferIndices, hlen]
          omega
        · rw [salvaParcial_lotes]
          exact h.cinco
        · rw [salvaParcial_lotes, salvaParcial_bufferIndices]
          exact hord
        · rw [salvaParcial_bufferIndices]
          intro i hi
          rcases salvaParcial_linhasTraduzidas (enfileira tr idioma e linha) with h1 | h1
          · rw [h1]
            exact hpend i hi
          · rw [h1]
            right
            exact coage_pendente _ _ (hpend i hi)
  · have hc2 : includes linha doisPontos = false := by simpa using hc
    rw [passo_passthrough tr idioma e linha hc2]
    exact InvLotes_push pre e linha _ h (traduzivel_passthrough linha hc2)

theorem laco_snoc (tr : Tradutor) (idioma : Str) (pre : List Str) (linha : Str) (e : Estado) :
    laco tr idioma (pre ++ [linha]) e = passo tr idioma (laco tr idioma pre e) linha := by
  simp [laco, List.foldl_append]

theorem laco_append (tr : Tradutor) (idioma : Str) (pre mid : List Str) (e : Estado) :
    laco tr idioma (pre ++ mid) e = laco tr idioma mid (laco tr idioma pre e) := by
  simp [laco, List.foldl_append]

/-- The invariant of the buffer holds after the loop ran over any input. -/
theorem InvLotes_laco_inicial (tr : Tradutor) (idioma : Str) (ls : List Str) :
    InvLotes ls (laco tr idioma ls Estado.inicial) := by
  induction ls using List.reverseRecOn with
  | nil =>
    refine ⟨?_, ?_, ?_, ?_⟩ <;> simp [laco, Estado.inicial, indicesTraduziveis]
  | append_singleton pre l ih =>
    rw [laco_snoc]
    exact InvLotes_passo tr idioma pre _ l (Inv_laco_inicial tr idioma pre) ih

theorem traduzivel_iff (linha : Str) :
    traduzivel linha = true ↔
      includes linha doisPontos = true ∧ (valorOriginal linha).isEmpty = false := by
  simp [traduzivel]

theorem finaliza_lotes_of_ne (e : Estado) (h : e.bufferPromises ≠ []) :
    (finaliza e).lotes = e.lotes ++ [e.bufferIndices] ∧ (finaliza e).bufferIndices = [] ∧
    (finaliza e).bufferPromises = [] := by
  have hpos : e.bufferPromises.length > 0 := List.length_pos.mpr h
  simp [finaliza, hpos, processaBuffer]

theorem finaliza_lotes_of_eq (e : Estado) (h : e.bufferPromises = []) :
    (finaliza e).lotes = e.lotes ∧ (finaliza e).bufferIndices = e.bufferIndices ∧
    (finaliza e).bufferPromises = [] := by
  simp [finaliza, h]

/-- What an iteration does to the buffer when it queues the fifth job. -/
theorem passo_quinto (tr : Tradutor) (idioma : Str) (e : Estado) (linha : Str)
    (ht : traduzivel linha = true) (h4 : e.bufferPromises.length = 4) :
    (passo tr idioma e linha).bufferPromises = [] ∧
    (passo tr idioma e linha).bufferIndices = [] ∧
    (passo tr idioma e linha).lotes = e.lotes ++ [e.bufferIndices ++ [e.contador]] := by
  obtain ⟨hc, hv⟩ := (traduzivel_iff linha).mp ht
  rw [passo_traduz tr idioma e linha hc hv]
  have h5 : (enfileira tr idioma e linha).bufferPromises.length ≥ 5 := by
    simp [enfileira, h4]
  rw [if_pos h5, salvaParcial_bufferPromises, salvaParcial_bufferIndices, salvaParcial_lotes]
  simp [processaBuffer, enfileira]

/-- C13: at the start of every iteration of the line loop, and at its end,
`bufferPromises` and `bufferIndices` have the same length, at most 4; inside an
iteration the buffer reaches at most 5 and is emptied when it does; every batch
resolved inside the loop holds exactly 5 jobs; batches and buffer together are
the translatable entries in source order; and the batch drained at the end of
the stream, when there is one, holds 1 to 4 jobs. -/
theorem batch_bound (tr : Tradutor) (idioma : Str) (pre : List Str) :
    (laco tr idioma pre Estado.inicial).bufferIndices.length
      = (laco tr idioma pre Estado.inicial).bufferPromises.length ∧
    (laco tr idioma pre Estado.inicial).bufferPromises.length ≤ 4 ∧
    (∀ b ∈ (laco tr idioma pre Estado.inicial).lotes, b.length = 5) ∧
    (laco tr idioma pre Estado.inicial).lotes.flatten
        ++ (laco tr idioma pre Estado.inicial).bufferIndices = indicesTraduziveis pre ∧
    (∀ linha,
      (enfileira tr idioma (laco tr idioma pre Estado.inicial) linha).bufferPromises.length ≤ 5 ∧
      (enfileira tr idioma (laco tr idioma pre Estado.inicial) linha).bufferIndices.length
        = (enfileira tr idioma (laco tr idioma pre Estado.inicial) linha).bufferPromises.length) ∧
    (∀ linha, traduzivel linha = true →
      (laco tr idioma pre Estado.inicial).bufferPromises.length = 4 →
      (laco tr idioma (pre ++ [linha]) Estado.inicial).bufferPromises = [] ∧
      (laco tr idioma (pre ++ [linha]) Estado.inicial).bufferIndices = [] ∧
      (laco tr idioma (pre ++ [linha]) Estado.inicial).lotes
        = (laco tr idioma pre Estado.inicial).lotes
          ++ [(laco tr idioma pre Estado.inicial).bufferIndices ++ [pre.length]]) ∧
    (traduzirParaIdioma tr idioma pre).lotes.flatten = indicesTraduziveis pre ∧
    (traduzirParaIdioma tr idioma pre).bufferPromises = [] ∧
    (∀ b ∈ (traduzirParaIdioma tr idioma pre).lotes.dropLast, b.length = 5) ∧
    (∀ b ∈ (traduzirParaIdioma tr idioma pre).lotes, 1 ≤ b.length ∧ b.length ≤ 5) ∧
    ((laco tr idioma pre Estado.inicial).bufferPromises ≠ [] →
      (traduzirParaIdioma tr idioma pre).lotes
        = (laco tr idioma pre Estado.inicial).lotes
          ++ [(laco tr idioma pre Estado.inicial).bufferIndices] ∧
      1 ≤ (laco tr idioma pre Estado.inicial).bufferIndices.length ∧
      (laco tr idioma pre Estado.inicial).bufferIndices.length ≤ 4) := by
  have hI := Inv_laco_inicial tr idioma pre
  have hL := InvLotes_laco_inicial tr idioma pre
  have hmax := hL.max
  have hbuf := hI.buf
  have hfin_ne : (laco tr idioma pre Estado.inicial).bufferPromises ≠ [] →
      (traduzirParaIdioma tr idioma pre).lotes
        = (laco tr idioma pre Estado.inicial).lotes
          ++ [(laco tr idioma pre Estado.inicial).bufferIndices] ∧
      1 ≤ (laco tr idioma pre Estado.inicial).bufferIndices.length ∧
      (laco tr idioma pre Estado.inicial).bufferIndices.length ≤ 4 := by
    intro hne
    have hpos : 0 < (laco tr idioma pre Estado.inicial).bufferPromises.length :=
      List.length_pos.mpr hne
    exact ⟨(finaliza_lotes_of_ne _ hne).1, by omega, hmax⟩
  refine ⟨hbuf, by omega, hL.cinco, hL.ordem, ?_, ?_, ?_, ?_, ?_, ?_, hfin_ne⟩
  · intro linha
    constructor
    · simp only [enfileira, List.length_append, List.length_singleton]
      omega
    · simp only [enfileira, List.length_append, List.length_singleton]
      omega
  · intro linha ht h4
    rw [laco_snoc, ← hI.cont]
    exact passo_quinto tr idioma _ linha ht h4
  · by_cases hne : (laco tr idioma pre Estado.inicial).bufferPromises = []
    · have hbi : (laco tr idioma pre Estado.inicial).bufferIndices = [] := by
        apply List.length_eq_zero.mp
        rw [hbuf, hne]
        rfl
      rw [traduzirParaIdioma, (finaliza_lotes_of_eq _ hne).1, ← hL.ordem, hbi]
      simp
    · rw [traduzirParaIdioma, (finaliza_lotes_of_ne _ hne).1, ← hL.ordem]
      simp
  · by_cases hne : (laco tr idioma pre Estado.inicial).bufferPromises = []
    · exact (finaliza_lotes_of_eq _ hne).2.2
    · exact (finaliza_lotes_of_ne _ hne).2.2
  · by_cases hne : (laco tr idioma pre Estado.inicial).bufferPromises = []
    · rw [traduzirParaIdioma, (finaliza_lotes_of_eq _ hne).1]
      intro b hb
      exact hL.cinco b (List.mem_of_mem_dropLast hb)
    · rw [traduzirParaIdioma, (finaliza_lotes_of_ne _ hne).1, List.dropLast_concat]
      exact hL.cinco
  · by_cases hne : (laco tr idioma pre Estado.inicial).bufferPromises = []
    · rw [traduzirParaIdioma, (finaliza_lotes_of_eq _ hne).1]
      intro b hb
      have := hL.cinco b hb
      omega
    · rw [traduzirParaIdioma, (finaliza_lotes_of_ne _ hne).1]
      intro b hb
      simp only [List.mem_append, List.mem_singleton] at hb
      rcases hb with hb | hb
      · have := hL.cinco b hb
        omega
      · have := (hfin_ne hne).2
        rw [hb]
        omega

/-- Instance of `batch_bound`: seven translatable entries and a comment give
one batch of five and a last batch of two. -/
theorem batch_bound_witness :
    (traduzirParaIdioma (dicionario "Olá".toList "Hello".toList) "en".toList
        ["a: Olá".toList, "b: Olá".toList, "# c".toList, "d: Olá".toList, "e: Olá".toList,
          "f: Olá".toList, "g: Olá".toList, "h: Olá".toList]).lotes
      = [[0, 1, 3, 4, 5], [6, 7]] ∧
    (traduzirParaIdioma (dicionario "Olá".toList "Hello".toList) "en".toList
        ["a: Olá".toList, "b: Olá".toList, "# c".toList, "d: Olá".toList, "e: Olá".toList,
          "f: Olá".toList, "g: Olá".toList, "h: Olá".toList]).lotes.flatten
      = indicesTraduziveis
        ["a: Olá".toList, "b: Olá".toList, "# c".toList, "d: Olá".toList, "e: Olá".toList,
          "f: Olá".toList, "g: Olá".toList, "h: Olá".toList] :=
  ⟨by decide,
   (batch_bound (dicionario "Olá".toList "Hello".toList) "en".toList
        ["a: Olá".toList, "b: Olá".toList, "# c".toList, "d: Olá".toList, "e: Olá".toList,
          "f: Olá".toList, "g: Olá".toList, "h: Olá".toList]).2.2.2.2.2.2.1⟩

/-! ## How a slot is populated -/

theorem passo_contador (tr : Tradutor) (idioma : Str) (e : Estado) (linha : Str) :
    (passo tr idioma e linha).contador = e.contador + 1 := by
  by_cases hc : includes linha doisPontos = true
  · by_cases hv : (valorOriginal linha).isEmpty = true
    · rw [passo_vazia tr idioma e linha hc hv]
    · have hv2 : (valorOriginal linha).isEmpty = false := by simpa using hv
      rw [passo_traduz tr idioma e linha hc hv2, salvaParcial_contador]
      split_ifs <;> rfl
  · have hc2 : includes linha doisPontos = false := by simpa using hc
    rw [passo_passthrough tr idioma e linha hc2]

/-- An iteration puts at most the index of its own line into the buffer. -/
theorem passo_bufferIndices_mem (tr : Tradutor) (idioma : Str) (e : Estado) (linha : Str)
    (i : Nat) (h : i ∈ (passo tr idioma e linha).bufferIndices) :
    i ∈ e.bufferIndices ∨ i = e.contador := by
  by_cases hc : includes linha doisPontos = true
  · by_cases hv : (valorOriginal linha).isEmpty = true
    · rw [passo_vazia tr idioma e linha hc hv] at h
      exact Or.inl h
    · have hv2 : (valorOriginal linha).isEmpty = false := by simpa using hv
      rw [passo_traduz tr idioma e linha hc hv2, salvaParcial_bufferIndices] at h
      split_ifs at h
      · simp [processaBuffer] at h
      · simpa [enfileira] using h
  · have hc2 : includes linha doisPontos = false := by simpa using hc
    rw [passo_passthrough tr idioma e linha hc2] at h
    exact Or.inl h

/-- Later iterations only put later indices into the buffer. -/
theorem laco_bufferIndices_mem (tr : Tradutor) (idioma : Str) (ls : List Str) (i : Nat) :
    ∀ e : Estado, i ∈ (laco tr idioma ls e).bufferIndices →
      i ∈ e.bufferIndices ∨ e.contador ≤ i := by
  induction ls with
  | nil => intro e h; exact Or.inl (by simpa [laco] using h)
  | cons l ls ih =>
    intro e h
    have h2 : i ∈ (laco tr idioma ls (passo tr idioma e l)).bufferIndices := by
      simpa [laco] using h
    rcases ih _ h2 with h3 | h3
    · rcases passo_bufferIndices_mem tr idioma e l i h3 with h4 | h4
      · exact Or.inl h4
      · exact Or.inr (by omega)
    · rw [passo_contador] at h3
      exact Or.inr (by omega)

/-- A partial save that runs while a job waits puts the empty string into the
slot of the job, and the final drain assigns the slot again. -/
theorem pendente_reatribuido (tr : Tradutor) (idioma : Str) (ls : List Str) (entrada : Str)
    (h : ∀ l ∈ ls, includes l doisPontos = false) (hlen : ls.length = 499)
    (hc : includes entrada doisPontos = true) (hv : (valorOriginal entrada).isEmpty = false) :
    (laco tr idioma (ls ++ [entrada]) Estado.inicial).linhasTraduzidas[499]? = some (some []) ∧
    (traduzirParaIdioma tr idioma (ls ++ [entrada])).linhasTraduzidas[499]? =
      some (some (formata (chave entrada)
        (traduzirLinha (tr 499) (valorOriginal entrada) idioma
          tentativasPadrao esperaPadrao).texto)) := by
  obtain ⟨-, h2, h3⟩ := salva_parcial_com_pendente tr idioma ls entrada h hlen hc hv
  constructor
  · rw [h2, ← hlen]
    simp
  · rw [← linhasFinal_map_some, List.getElem?_map, h3]
    rfl

/-- C14, as stated, fails: with 499 comment lines before one entry, the partial
save at 500 lines puts the empty string, which is not the placeholder, into
slot 499 while its job waits, and the final drain assigns the slot again. -/
theorem slot_assigned_twice :
    (laco (dicionario "Olá".toList "Hello".toList) "en".toList
        (List.replicate 499 "# comentário".toList ++ ["a: Olá".toList])
        Estado.inicial).linhasTraduzidas[499]? = some (some []) ∧
    (traduzirParaIdioma (dicionario "Olá".toList "Hello".toList) "en".toList
        (List.replicate 499 "# comentário".toList ++ ["a: Olá".toList])).linhasTraduzidas[499]?
      = some (some (formata (chave "a: Olá".toList)
          (traduzirLinha (dicionario "Olá".toList "Hello".toList 499)
            (valorOriginal "a: Olá".toList) "en".toList tentativasPadrao esperaPadrao).texto)) ∧
    formata (chave "a: Olá".toList)
        (traduzirLinha (dicionario "Olá".toList "Hello".toList 499)
          (valorOriginal "a: Olá".toList) "en".toList tentativasPadrao esperaPadrao).texto
      = "  a: 'Hello'".toList := by
  have h : ∀ l ∈ List.replicate 499 "# comentário".toList, includes l doisPontos = false := by
    intro l hl
    rw [List.eq_of_mem_replicate hl]
    decide
  have := pendente_reatribuido (dicionario "Olá".toList "Hello".toList) "en".toList
    (List.replicate 499 "# comentário".toList) "a: Olá".toList h (List.length_replicate _ _)
    (by decide) (by decide)
  exact ⟨this.1, this.2, by decide⟩

/-- C14, amended: the slot of a line that is not a translatable entry is never
named in the buffer; while the job of a slot waits in the buffer the slot holds
null or, after a partial save, the empty string; once the slot is not in the
buffer it holds the output line of its source line and keeps it through every
later iteration and the final drain. -/
theorem slot_population (tr : Tradutor) (idioma : Str) (pre mid : List Str) (i : Nat)
    (linha : Str) (hl : pre[i]? = some linha) :
    (traduzivel linha = false → i ∉ (laco tr idioma pre Estado.inicial).bufferIndices) ∧
    (i ∈ (laco tr idioma pre Estado.inicial).bufferIndices →
      (laco tr idioma pre Estado.inicial).linhasTraduzidas[i]? = some none ∨
      (laco tr idioma pre Estado.inicial).linhasTraduzidas[i]? = some (some [])) ∧
    (i ∉ (laco tr idioma pre Estado.inicial).bufferIndices →
      (laco tr idioma pre Estado.inicial).linhasTraduzidas[i]?
        = some (some (esperado tr idioma i linha)) ∧
      i ∉ (laco tr idioma (pre ++ mid) Estado.inicial).bufferIndices ∧
      (laco tr idioma (pre ++ mid) Estado.inicial).linhasTraduzidas[i]?
        = some (some (esperado tr idioma i linha))) ∧
    (traduzirParaIdioma tr idioma (pre ++ mid)).linhasTraduzidas[i]?
      = some (some (esperado tr idioma i linha)) := by
  have hI := Inv_laco_inicial tr idioma pre
  have hI2 := Inv_laco_inicial tr idioma (pre ++ mid)
  have hlt := lt_of_getElem?_eq_some _ _ _ hl
  have hl2 : (pre ++ mid)[i]? = some linha := by
    rw [List.getElem?_append_left hlt, hl]
  refine ⟨?_, ?_, ?_, ?_⟩
  · intro ht hi
    obtain ⟨l, h1, h2, h3⟩ := hI.trad i hi
    rw [hl] at h1
    simp only [Option.some.injEq] at h1
    rw [← h1] at h2 h3
    rw [traduzivel_of linha h2 h3] at ht
    simp at ht
  · intro hi
    exact (InvLotes_laco_inicial tr idioma pre).pendente i hi
  · intro hi
    have hi2 : i ∉ (laco tr idioma (pre ++ mid) Estado.inicial).bufferIndices := by
      intro hmem
      rw [laco_append] at hmem
      rcases laco_bufferIndices_mem tr idioma mid i _ hmem with h1 | h1
      · exact hi h1
      · rw [hI.cont] at h1
        omega
    refine ⟨?_, hi2, ?_⟩
    · rcases hI.slot i linha hl with h1 | h1
      · exact h1
      · exact absurd h1 hi
    · rcases hI2.slot i linha hl2 with h1 | h1
      · exact h1
      · exact absurd h1 hi2
  · exact finaliza_slot tr idioma (pre ++ mid) _ hI2 i linha hl2

/-- Instance of `slot_population`: a comment line, read before two entries. -/
theorem slot_population_witness :
    (traduzirParaIdioma (dicionario "Olá".toList "Hello".toList) "en".toList
        (["# c".toList, "a: Olá".toList] ++ ["b: Olá".toList])).linhasTraduzidas[0]?
      = some (some (esperado (dicionario "Olá".toList "Hello".toList) "en".toList 0
          "# c".toList)) :=
  (slot_population (dicionario "Olá".toList "Hello".toList) "en".toList
    ["# c".toList, "a: Olá".toList] ["b: Olá".toList] 0 "# c".toList (by decide)).2.2.2

/-! ## The characters of an output line -/

/-- The text a retry chain returns is the text it was given or one answer of
the collaborator with its newlines replaced. -/
theorem traduzirLinha_texto_origem (valor idioma : Str) (t : Nat) :
    ∀ (translate : Oraculo) (espera : Nat),
      (traduzirLinha translate valor idioma t espera).texto = valor ∨
      ∃ n r, translate n valor idioma = .ok r ∧
        (traduzirLinha translate valor idioma t espera).texto = semQuebras r := by
  induction t with
  | zero =>
    intro translate espera
    rcases falhou_cases (translate 0 valor idioma) with ⟨msg, h0, -⟩ | ⟨res, h0, -⟩
    · rw [traduzirLinha_exhausted _ _ _ _ _ h0]
      exact Or.inl rfl
    · rw [traduzirLinha_ok _ _ _ _ _ _ h0]
      exact Or.inr ⟨0, res, h0, rfl⟩
  | succ n ih =>
    intro translate espera
    rcases falhou_cases (translate 0 valor idioma) with ⟨msg, h0, -⟩ | ⟨res, h0, -⟩
    · rw [traduzirLinha_retry _ _ _ _ _ _ h0]
      rcases ih (fun k => translate (k + 1)) (espera * 2) with h1 | ⟨m, r, h1, h2⟩
      · exact Or.inl h1
      · exact Or.inr ⟨m + 1, r, h1, h2⟩
    · rw [traduzirLinha_ok _ _ _ _ _ _ h0]
      exact Or.inr ⟨0, res, h0, rfl⟩

theorem aspaSimples_ne_space : aspaSimples ≠ ' ' := by decide

theorem aspaSimples_mem_semQuebras (r : Str) (h : aspaSimples ∈ semQuebras r) :
    aspaSimples ∈ r := by
  simp only [semQuebras, List.mem_map] at h
  obtain ⟨c, hc, e⟩ := h
  split_ifs at e with h1
  · exact absurd e.symm aspaSimples_ne_space
  · rw [← e]
    exact hc

/-- C15, as stated, fails: an apostrophe in the answer of the collaborator, or
in the source value that is written back when every call fails, stands
unescaped between the enclosing apostrophes of the output line. -/
theorem apostrophe_written_unescaped :
    linhasFinal (dicionario "Não".toList "Don't".toList) "en".toList ["msg: Não".toList]
      = ["  msg: 'Don't'".toList] ∧
    aspaSimples ∈ (traduzirLinha (dicionario "Não".toList "Don't".toList 0)
      (valorOriginal "msg: Não".toList) "en".toList tentativasPadrao esperaPadrao).texto ∧
    linhasFinal (fun _ => sempreFalha "timeout".toList) "en".toList
        ["agua: copo d'água".toList]
      = ["  agua: 'copo d'água'".toList] ∧
    aspaSimples ∈ (traduzirLinha (sempreFalha "timeout".toList)
      (valorOriginal "agua: copo d'água".toList) "en".toList tentativasPadrao
      esperaPadrao).texto := by
  decide

/-- C15, amended: the output line of a translatable entry is two spaces, the
key, a colon, a space and, between two apostrophes, the text `traduzirLinha`
returned, written as it is; that text is the normalized source value or an
answer of the collaborator with its newlines replaced, and it is free of
apostrophes whenever the normalized source value and every answer of the
collaborator for that entry are. -/
theorem entry_line_quoting (tr : Tradutor) (idioma : Str) (linhas : List Str)
    (i : Nat) (antes depois : Str)
    (hl : linhas[i]? = some (antes ++ doisPontos :: depois))
    (hn : doisPontos ∉ antes) (hv : cleanValue depois ≠ []) :
    (linhasFinal tr idioma linhas)[i]? =
      some ("  ".toList ++ trim antes ++ [doisPontos, ' ', aspaSimples] ++
        (traduzirLinha (tr i) (cleanValue depois) idioma tentativasPadrao esperaPadrao).texto
        ++ [aspaSimples]) ∧
    ((traduzirLinha (tr i) (cleanValue depois) idioma tentativasPadrao esperaPadrao).texto
        = cleanValue depois ∨
      ∃ n r, tr i n (cleanValue depois) idioma = .ok r ∧
        (traduzirLinha (tr i) (cleanValue depois) idioma tentativasPadrao esperaPadrao).texto
          = r.map (fun c => if c = novaLinha then ' ' else c)) ∧
    (aspaSimples ∉ cleanValue depois →
      (∀ n r, tr i n (cleanValue depois) idioma = .ok r → aspaSimples ∉ r) →
      aspaSimples ∉
        (traduzirLinha (tr i) (cleanValue depois) idioma tentativasPadrao esperaPadrao).texto) := by
  have ho := traduzirLinha_texto_origem (cleanValue depois) idioma tentativasPadrao (tr i)
    esperaPadrao
  refine ⟨?_, ho, ?_⟩
  · rw [linhasFinal_getElem? tr idioma linhas i _ hl,
      esperado_entrada tr idioma i antes depois hn hv]
    rfl
  · intro h1 h2 hmem
    rcases ho with h3 | ⟨n, r, h3, h4⟩
    · rw [h3] at hmem
      exact h1 hmem
    · rw [h4] at hmem
      exact h2 n r h3 (aspaSimples_mem_semQuebras r hmem)

/-- Instance of `entry_line_quoting`: a translation without apostrophe. -/
theorem entry_line_quoting_witness :
    aspaSimples ∉ (traduzirLinha (dicionario "Olá".toList "Hello".toList 0)
      (cleanValue " Olá".toList) "en".toList tentativasPadrao esperaPadrao).texto :=
  (entry_line_quoting (dicionario "Olá".toList "Hello".toList) "en".toList ["a: Olá".toList]
    0 "a".toList " Olá".toList (by decide) (by decide) (by decide)).2.2 (by decide)
    (fun n r h => by
      simp only [dicionario] at h
      split_ifs at h
      · injection h with h
        rw [← h]
        decide)

/-! ## Newlines and the written file -/

theorem mem_of_mem_trim (s : Str) (c : Char) (h : c ∈ trim s) : c ∈ s := by
  have h1 : c ∈ trimStart s := by
    have := List.rdropWhile_prefix isWhiteSpace (trimStart s)
    exact this.subset h
  exact (List.dropWhile_suffix isWhiteSpace).subset h1

theorem mem_of_mem_stripLeadingQuote (s : Str) (c : Char) (h : c ∈ stripLeadingQuote s) :
    c ∈ s := by
  cases s with
  | nil => simp [stripLeadingQuote] at h
  | cons a t =>
    by_cases hq : isQuote a = true
    · simp only [stripLeadingQuote, hq, if_true] at h
      exact List.mem_cons_of_mem _ h
    · simpa [stripLeadingQuote, hq] using h

theorem mem_of_mem_stripTrailingQuote (s : Str) (c : Char) (h : c ∈ stripTrailingQuote s) :
    c ∈ s := by
  unfold stripTrailingQuote at h
  cases hl : s.getLast? with
  | none => rw [hl] at h; simp at h
  | some a =>
    rw [hl] at h
    by_cases hq : isQuote a = true
    · simp only [hq, if_true] at h
      exact List.mem_of_mem_dropLast h
    · simpa [hq] using h

theorem mem_of_mem_cleanValue (s : Str) (c : Char) (h : c ∈ cleanValue s) : c ∈ s :=
  mem_of_mem_trim _ _ (mem_of_mem_stripLeadingQuote _ _
    (mem_of_mem_stripTrailingQuote _ _ (mem_of_mem_trim _ _ h)))

/-- A retry chain started on a text without newline returns a text without
newline. -/
theorem traduzirLinha_sem_novaLinha (translate : Oraculo) (valor idioma : Str)
    (t espera : Nat) (h : novaLinha ∉ valor) :
    novaLinha ∉ (traduzirLinha translate valor idioma t espera).texto := by
  rcases traduzirLinha_texto_origem valor idioma t translate espera with h1 | ⟨n, r, -, h1⟩
  · rw [h1]
    exact h
  · rw [h1]
    exact semQuebras_sem_novaLinha r

theorem novaLinha_not_mem_formata (c t : Str) (hc : novaLinha ∉ c) (ht : novaLinha ∉ t) :
    novaLinha ∉ formata c t := by
  intro h
  simp only [formata, List.mem_append, List.mem_cons, List.mem_singleton, List.not_mem_nil,
    or_false] at h
  have d1 : novaLinha ≠ ' ' := by decide
  have d2 : novaLinha ≠ doisPontos := by decide
  have d3 : novaLinha ≠ aspaSimples := by decide
  tauto

theorem novaLinha_not_mem_formataVazia (c : Str) (hc : novaLinha ∉ c) :
    novaLinha ∉ formataVazia c := by
  intro h
  simp only [formataVazia, List.mem_append, List.mem_cons, List.mem_singleton,
    List.not_mem_nil, or_false] at h
  have d1 : novaLinha ≠ ' ' := by decide
  have d2 : novaLinha ≠ doisPontos := by decide
  have d3 : novaLinha ≠ aspaSimples := by decide
  tauto

/-- The output line of a source line without newline has no newline. -/
theorem esperado_sem_novaLinha (tr : Tradutor) (idioma : Str) (i : Nat) (linha : Str)
    (h : novaLinha ∉ linha) : novaLinha ∉ esperado tr idioma i linha := by
  by_cases hc : includes linha doisPontos = true
  · obtain ⟨antes, depois, e, hn⟩ := exists_first_colon linha hc
    obtain ⟨-, -, h3, -, -, -, h7⟩ := primeiro_dois_pontos linha antes depois e hn
    have ha : novaLinha ∉ chave linha := by
      intro hm
      rw [h3] at hm
      apply h
      rw [e]
      exact List.mem_append_left _ (mem_of_mem_trim _ _ hm)
    have hd : novaLinha ∉ valorOriginal linha := by
      intro hm
      rw [h7] at hm
      apply h
      rw [e]
      exact List.mem_append_right _ (List.mem_cons_of_mem _ (mem_of_mem_cleanValue _ _ hm))
    by_cases hv : (valorOriginal linha).isEmpty = true
    · rw [esperado_vazia tr idioma i linha hc hv]
      exact novaLinha_not_mem_formataVazia _ ha
    · have hv2 : (valorOriginal linha).isEmpty = false := by simpa using hv
      rw [esperado_traduz tr idioma i linha hc hv2]
      exact novaLinha_not_mem_formata _ _ ha (traduzirLinha_sem_novaLinha _ _ _ _ _ hd)
  · have hc2 : includes linha doisPontos = false := by simpa using hc
    rw [esperado_passthrough tr idioma i linha hc2]
    exact h

theorem split_of_not_mem (sep : Char) (s : Str) (h : sep ∉ s) : split sep s = [s] := by
  induction s with
  | nil => rfl
  | cons c t ih =>
    have hc : c ≠ sep := fun e => h (by simp [e])
    have ht : sep ∉ t := fun e => h (by simp [e])
    rw [split_cons_of_ne _ _ _ hc, ih ht]
    rfl

/-- Splitting the joined text gives back the lines, when there is at least one
line and no line contains the separator. -/
theorem split_join (sep : Char) (ls : List Str) (hne : ls ≠ [])
    (h : ∀ l ∈ ls, sep ∉ l) : split sep (join [sep] ls) = ls := by
  induction ls with
  | nil => exact absurd rfl hne
  | cons a t ih =>
    have ha : sep ∉ a := h a (by simp)
    cases t with
    | nil => simpa [join] using split_of_not_mem sep a ha
    | cons b rest =>
      have := ih (by simp) (fun l hl => h l (by simp [hl]))
      simp only [join, List.append_assoc, List.singleton_append]
      rw [split_append_sep sep a _ ha, this]

theorem linhasFinal_sem_novaLinha (tr : Tradutor) (idioma : Str) (linhas : List Str)
    (h : ∀ l ∈ linhas, novaLinha ∉ l) : ∀ l ∈ linhasFinal tr idioma linhas, novaLinha ∉ l := by
  intro l hl
  obtain ⟨i, hi⟩ := List.mem_iff_getElem?.mp hl
  have hlt := lt_of_getElem?_eq_some _ _ _ hi
  rw [linhasFinal_length] at hlt
  have hp : linhas[i]? = some (linhas[i]) := List.getElem?_eq_getElem hlt
  rw [linhasFinal_getElem? tr idioma linhas i _ hp] at hi
  simp only [Option.some.injEq] at hi
  rw [← hi]
  exact esperado_sem_novaLinha tr idioma i _ (h _ (List.getElem_mem hlt))

/-- C17, as stated, fails on the empty input: the output has no line, the text
written is empty, and splitting the empty text on the newline gives one empty
line. -/
theorem empty_input_roundtrip :
    (∀ l ∈ ([] : List Str), novaLinha ∉ l) ∧
    linhasFinal (dicionario [] []) "en".toList [] = [] ∧
    join [novaLinha] (linhasFinal (dicionario [] []) "en".toList []) = [] ∧
    split novaLinha (join [novaLinha] (linhasFinal (dicionario [] []) "en".toList [])) = [[]] ∧
    split novaLinha (join [novaLinha] (linhasFinal (dicionario [] []) "en".toList []))
      ≠ linhasFinal (dicionario [] []) "en".toList [] ∧
    (split novaLinha (join [novaLinha] (linhasFinal (dicionario [] []) "en".toList []))).length
      ≠ ([] : List Str).length := by
  decide

/-- C17, amended: if no input line contains a newline then no line of the final
output contains one, and, when the input has at least one line, splitting the
text of the last write on the newline gives back exactly the output lines, as
many as the input has. -/
theorem output_has_no_newline (tr : Tradutor) (idioma : Str) (linhas : List Str)
    (h : ∀ l ∈ linhas, novaLinha ∉ l) :
    (∀ l ∈ linhasFinal tr idioma linhas, novaLinha ∉ l) ∧
    (∃ g, (traduzirParaIdioma tr idioma linhas).gravacoes.getLast? = some g ∧
      g.linhas = linhasFinal tr idioma linhas ∧
      g.conteudo = join [novaLinha] (linhasFinal tr idioma linhas)) ∧
    (linhas ≠ [] →
      split novaLinha (join [novaLinha] (linhasFinal tr idioma linhas))
        = linhasFinal tr idioma linhas ∧
      (split novaLinha (join [novaLinha] (linhasFinal tr idioma linhas))).length
        = linhas.length) := by
  have h1 := linhasFinal_sem_novaLinha tr idioma linhas h
  refine ⟨h1, ?_, ?_⟩
  · refine ⟨{ linhas := linhasFinal tr idioma linhas, parcial := false }, ?_, rfl, rfl⟩
    simp [traduzirParaIdioma, finaliza, linhasFinal]
  · intro hne
    have hne2 : linhasFinal tr idioma linhas ≠ [] := by
      intro e
      have := linhasFinal_length tr idioma linhas
      rw [e] at this
      exact hne (List.length_eq_zero.mp this.symm)
    have := split_join novaLinha _ hne2 h1
    rw [this]
    exact ⟨rfl, linhasFinal_length tr idioma linhas⟩

/-- Instance of `output_has_no_newline`: a comment and an entry whose
translation has two lines. -/
theorem output_has_no_newline_witness :
    split novaLinha (join [novaLinha]
        (linhasFinal (dicionario "Olá".toList "Hello\nWorld".toList) "en".toList
          ["# c".toList, "a: Olá".toList]))
      = linhasFinal (dicionario "Olá".toList "Hello\nWorld".toList) "en".toList
          ["# c".toList, "a: Olá".toList] ∧
    linhasFinal (dicionario "Olá".toList "Hello\nWorld".toList) "en".toList
        ["# c".toList, "a: Olá".toList] = ["# c".toList, "  a: 'Hello World'".toList] :=
  ⟨((output_has_no_newline (dicionario "Olá".toList "Hello\nWorld".toList) "en".toList
      ["# c".toList, "a: Olá".toList] (by decide)).2.2 (by decide)).1,
   by decide⟩

end TraduzirLinhas
